import Mathlib

/-!
A shallow embedding of the DOMKit repository (a wrapper library around browser
document nodes) together with theorems settling the specification's claims.

The live document tree is modeled explicitly by `Doc`: a store of nodes indexed
by natural-number ids, a distinguished `body` id, and a fresh-id counter.  The
three class variants found in the sources are modeled:

* `TagLegacy` — `class TagLegacy` in src/lib/DOMKit.js;
* `TagB`      — the `class Tag` with `constructor(id, debug)` in src/lib/DOMKit.js
                (the class named `Tag` in the same file segment as `TagLegacy`,
                hence the one its `type`/`children` setters instantiate);
* `TagC`      — the `class Tag` with `constructor(element, debug)` in
                src/unnamed/part_000.

Platform (DOM) behavior that the sources rely on is modeled under `Doc`:
element/text creation, attribute get/set/remove, append (move) semantics,
detachment, `getElementById`, and the HTML-document case folding of tag names
(`createElement` lowercases the local name, `tagName` reports it uppercased).
Tag names are treated as ASCII, which is the range the case-folding lemmas
cover.  JS exceptions are modeled by `JSResult`: a thrown error carries the
document and handle state as they stand when the exception escapes, since DOM
side effects performed before a throw persist.
-/

/-- Kinds of document nodes the sources manipulate. -/
inductive NodeKind where
  | element
  | text
deriving DecidableEq, Repr

/-- One node of the live document tree. `attrs` is kept in platform order
(`setAttribute` replaces in place or appends). -/
structure Node where
  kind : NodeKind
  localName : String
  textContent : String
  attrs : List (String × String)
  parent : Option Nat
  children : List Nat
deriving DecidableEq, Repr

/-- The live document: a node store keyed by id, the `document.body` id, and a
counter supplying fresh ids. -/
structure Doc where
  nodes : List (Nat × Node)
  body : Nat
  nextId : Nat
deriving DecidableEq, Repr

/-- Errors the modeled operations can raise: `TypeError` (calling a missing
method, dereferencing null/undefined, appending a non-Node) and the DOM's
`HierarchyRequestError`. -/
inductive JSError where
  | typeError
  | hierarchyRequestError
deriving DecidableEq, Repr

/-- Outcome of a stateful operation on a handle of state type `σ` returning a
value of type `α`.  A `thrown` outcome carries the document and handle state at
the moment the exception escapes (side effects already performed persist). -/
inductive JSResult (σ : Type) (α : Type) where
  | ok (d : Doc) (s : σ) (v : α)
  | thrown (d : Doc) (s : σ) (e : JSError)
deriving DecidableEq, Repr

/-- The document carried by an outcome, thrown or not. -/
def JSResult.doc {σ α : Type} : JSResult σ α → Doc
  | .ok d _ _ => d
  | .thrown d _ _ => d

/-- ASCII lowercasing of a string, as `String.prototype.toLowerCase` acts on
the ASCII tag names used here. -/
def toLowerCase (s : String) : String := ⟨s.data.map Char.toLower⟩

/-- ASCII uppercasing of a string. -/
def toUpperCase (s : String) : String := ⟨s.data.map Char.toUpper⟩

/-- Association-list lookup in the node store. -/
def lookupNode (l : List (Nat × Node)) (i : Nat) : Option Node :=
  (l.find? (fun p => p.1 == i)).map (·.2)

/-- Update the node stored under id `i` (no-op when absent). -/
def updNodes (l : List (Nat × Node)) (i : Nat) (f : Node → Node) : List (Nat × Node) :=
  l.map (fun p => if p.1 == i then (p.1, f p.2) else p)

def Doc.find (d : Doc) (i : Nat) : Option Node := lookupNode d.nodes i

/-- The ids present in the document. -/
def Doc.ids (d : Doc) : List Nat := d.nodes.map Prod.fst

/-- Well-formedness of the id supply: every stored id is below the counter. -/
def Doc.idsOk (d : Doc) : Prop := ∀ p ∈ d.nodes, p.1 < d.nextId

instance (d : Doc) : Decidable d.idsOk :=
  inferInstanceAs (Decidable (∀ p ∈ d.nodes, p.1 < d.nextId))

def Doc.parentOf (d : Doc) (i : Nat) : Option Nat := (d.find i).bind (·.parent)

def Doc.childrenOf (d : Doc) (i : Nat) : List Nat := ((d.find i).map (·.children)).getD []

/-- `setAttribute` on an attribute list: an existing key is overwritten in
place, a new key is appended (NamedNodeMap behavior). -/
def setAttr : List (String × String) → String → String → List (String × String)
  | [], k, v => [(k, v)]
  | kv :: t, k, v => if kv.1 == k then (k, v) :: t else kv :: setAttr t k v

/-- `getAttribute`: value of the first entry with the given name. -/
def getAttr? (l : List (String × String)) (k : String) : Option String :=
  (l.find? (fun kv => kv.1 == k)).map (·.2)

/-- `removeAttribute`: drop the entries with the given name. -/
def removeAttr (l : List (String × String)) (k : String) : List (String × String) :=
  l.filter (fun kv => kv.1 != k)

/-- A fresh element node.  In an HTML document `createElement` folds the local
name to lowercase; `tagName` later reports it uppercased. -/
def Node.mkElement (ty : String) : Node :=
  { kind := .element, localName := toLowerCase ty, textContent := "",
    attrs := [], parent := none, children := [] }

def Node.mkText (s : String) : Node :=
  { kind := .text, localName := "", textContent := s,
    attrs := [], parent := none, children := [] }

/-- `document.createElement(type)`: allocate a fresh, detached element. -/
def Doc.createElement (d : Doc) (ty : String) : Doc × Nat :=
  ({ d with nodes := d.nodes ++ [(d.nextId, Node.mkElement ty)], nextId := d.nextId + 1 },
   d.nextId)

/-- `document.createTextNode(s)`. -/
def Doc.createTextNode (d : Doc) (s : String) : Doc × Nat :=
  ({ d with nodes := d.nodes ++ [(d.nextId, Node.mkText s)], nextId := d.nextId + 1 },
   d.nextId)

/-- `tagName` of an element in an HTML document: the uppercased local name. -/
def Node.tagName (n : Node) : String := toUpperCase n.localName

def Doc.setAttribute (d : Doc) (i : Nat) (k v : String) : Doc :=
  { d with nodes := updNodes d.nodes i (fun n => { n with attrs := setAttr n.attrs k v }) }

def Doc.removeAttribute (d : Doc) (i : Nat) (k : String) : Doc :=
  { d with nodes := updNodes d.nodes i (fun n => { n with attrs := removeAttr n.attrs k }) }

/-- `document.getElementById(s)`: the first element whose `id` attribute is `s`. -/
def Doc.getElementById (d : Doc) (s : String) : Option Nat :=
  (d.nodes.find? (fun p => p.2.kind == NodeKind.element && getAttr? p.2.attrs "id" == some s)).map (·.1)

/-- Detach a node from its parent, the removal half of every DOM insertion
(also `Element.remove()`). -/
def Doc.detach (d : Doc) (c : Nat) : Doc :=
  match d.parentOf c with
  | none => d
  | some p =>
    let ns := updNodes d.nodes p (fun n => { n with children := n.children.filter (fun x => x != c) })
    { d with nodes := updNodes ns c (fun n => { n with parent := none }) }

/-- Place an (already detached) node at the end of a parent's child list. -/
def Doc.attach (d : Doc) (p c : Nat) : Doc :=
  let ns := updNodes d.nodes p (fun n => { n with children := n.children ++ [c] })
  { d with nodes := updNodes ns c (fun n => { n with parent := some p }) }

/-- The containment test behind the DOM's pre-insert validation, seen from the
inserted node's side: does node `p` lie in the inclusive subtree of `c`?
(`p.appendChild(c)` throws exactly when `c` is a host-including inclusive
ancestor of `p`, i.e. when this holds.)  The downward walk follows child
lists and is fuel-bounded; fuel `d.nodes.length` covers every chain of
distinct nodes, hence the whole subtree in an acyclic document. -/
def Doc.inSubtree (d : Doc) : Nat → Nat → Nat → Bool
  | 0, c, p => c == p
  | fuel + 1, c, p =>
    c == p ||
      (match d.find c with
       | some n => n.children.any (fun ch => d.inSubtree fuel ch p)
       | none => false)

/-- `parent.appendChild(c)` / `parent.append(c)`: the platform's pre-insert
validation throws a `HierarchyRequestError` when `c` is a host-including
inclusive ancestor of `parent` — equivalently, when `parent` lies in the
inclusive subtree of `c`, the relation `Doc.inSubtree` — leaving the tree
untouched, since validation precedes mutation; otherwise the node is moved:
detached from its old position and appended to the new parent.  The model
decides the validation by the direct self-insertion test, which is exact at
every call whose success a theorem below asserts: there the appended node is
freshly created (its inclusive subtree is only itself), or is assumed
detached with an inclusive subtree avoiding the target parent (an explicit
`Doc.inSubtree … = false` hypothesis), or is a parentless node appended
under `d.body` read as the attached live body, whose ancestry no detached
node's subtree contains. -/
def Doc.appendChild (d : Doc) (p c : Nat) : Except JSError Doc :=
  if c == p then .error .hierarchyRequestError
  else .ok ((d.detach c).attach p c)

/-- A JS object holding an attribute mapping: `objId` is the object's
reference identity (JS `!==` compares references, not contents). -/
structure AttrObj where
  objId : Nat
  entries : List (String × String)
deriving DecidableEq, Repr

/-- A child passed to the `TagLegacy` constructor: a string (to become a text
node) or a reference to an existing node. -/
inductive ChildVal where
  | str (s : String)
  | node (n : Nat)
deriving DecidableEq, Repr

/-- The node references among a child list. -/
def childNodeRefs : List ChildVal → List Nat
  | [] => []
  | .str _ :: t => childNodeRefs t
  | .node n :: t => n :: childNodeRefs t

/-- The instance fields of a `TagLegacy` object.  Each is the last value the
corresponding `this._x` assignment stored; `none` models null/undefined. -/
structure TagLegacyState where
  _type : Option String
  _attributes : Option AttrObj
  _parent : Option Nat
  _children : Option (List ChildVal)
  _relatives : Option (List (Option Nat))
  _tag : Option Nat
deriving DecidableEq, Repr

/-- The children loop at the end of the `TagLegacy` constructor: strings are
wrapped in text nodes, other children are appended directly.  A platform
exception stops the loop and escapes. -/
def TagLegacy.appendChildren (tagId : Nat) (cs : List ChildVal) (d : Doc)
    (h : TagLegacyState) : JSResult TagLegacyState Unit :=
  match cs with
  | [] => .ok d h ()
  | .str s :: rest =>
    let (d, t) := d.createTextNode s
    match d.appendChild tagId t with
    | .error e => .thrown d h e
    | .ok d => TagLegacy.appendChildren tagId rest d h
  | .node n :: rest =>
    match d.appendChild tagId n with
    | .error e => .thrown d h e
    | .ok d => TagLegacy.appendChildren tagId rest d h

/-- `new TagLegacy(type, attributes, parent, children)`: store the inputs,
create the element, set every attribute of the mapping, append under the given
parent — `document.body` when the parent argument is absent — then append the
children in order. -/
def TagLegacy.construct (type : String) (attributes : Option AttrObj)
    (parent : Option Nat) (children : Option (List ChildVal)) (d : Doc) :
    JSResult TagLegacyState Unit :=
  let h : TagLegacyState :=
    { _type := some type, _attributes := attributes, _parent := parent,
      _children := children, _relatives := none, _tag := none }
  let (d, tagId) := d.createElement type
  let h := { h with _tag := some tagId }
  let d :=
    match attributes with
    | some a => a.entries.foldl (fun (d : Doc) (kv : String × String) => d.setAttribute tagId kv.1 kv.2) d
    | none => d
  let pid := match h._parent with | some p => p | none => d.body
  let h := { h with _parent := some pid }
  match d.appendChild pid tagId with
  | .error e => .thrown d h e
  | .ok d =>
    match children with
    | none => .ok d h ()
    | some cs => TagLegacy.appendChildren tagId cs d h

/-- The `type` getter: `this._type = this.tag.tagName.toLowerCase()`. -/
def TagLegacy.getType (h : TagLegacyState) (d : Doc) : JSResult TagLegacyState String :=
  match h._tag with
  | none => .thrown d h .typeError
  | some t =>
    match d.find t with
    | none => .thrown d h .typeError
    | some n =>
      let ty := toLowerCase n.tagName
      .ok d { h with _type := some ty } ty

/-- The `attributes` getter: rebuild a fresh JS object from the live node's
attribute collection (`newAttributes[name] = getAttribute(name)` per entry).
`freshObjId` is the identity of the newly allocated object. -/
def TagLegacy.getAttributes (h : TagLegacyState) (freshObjId : Nat) (d : Doc) :
    JSResult TagLegacyState AttrObj :=
  match h._tag with
  | none => .thrown d h .typeError
  | some t =>
    match d.find t with
    | none => .thrown d h .typeError
    | some n =>
      let entries := n.attrs.foldl (fun acc kv => setAttr acc kv.1 ((getAttr? n.attrs kv.1).getD "")) []
      let obj : AttrObj := { objId := freshObjId, entries := entries }
      .ok d { h with _attributes := some obj } obj

/-- The `attributes` setter: store the incoming object, and (unless it is
reference-identical to the stored one) write every entry of the mapping onto
the live node with `setAttribute`.  Nothing is ever removed. -/
def TagLegacy.setAttributes (h : TagLegacyState) (a : AttrObj) (d : Doc) :
    JSResult TagLegacyState Unit :=
  let attributesOld := h._attributes
  let h := { h with _attributes := some a }
  if (match attributesOld with | some b => a.objId != b.objId | none => true) then
    match h._tag with
    | none => .thrown d h .typeError
    | some t => .ok (a.entries.foldl (fun (d : Doc) (kv : String × String) => d.setAttribute t kv.1 kv.2) d) h ()
  else .ok d h ()

/-- The argument of the `TagLegacy` `parent` setter as exercised here: a node
reference, or the very `TagLegacy` object the setter is invoked on. -/
inductive LegacyParentArg where
  | node (n : Nat)
  | selfObj
deriving DecidableEq, Repr

/-- The `parent` setter: store the new parent and, when it differs by
reference from the stored one, call `parent.append(this.tag)`.  A `TagLegacy`
object has no `append` method, so passing the handle itself throws a
`TypeError`; `ParentNode.append` stringifies a null argument into the text
"null". -/
def TagLegacy.setParent (h : TagLegacyState) (p : LegacyParentArg) (d : Doc) :
    JSResult TagLegacyState Unit :=
  let parentOld := h._parent
  match p with
  | .selfObj =>
    -- this._parent now holds the handle object, never a node reference; no
    -- modeled operation observes the field before the call below throws.
    let h := { h with _parent := none }
    .thrown d h .typeError
  | .node n =>
    let h := { h with _parent := some n }
    if some n ≠ parentOld then
      match h._tag with
      | some t =>
        match d.appendChild n t with
        | .error e => .thrown d h e
        | .ok d => .ok d h ()
      | none =>
        let (d, tn) := d.createTextNode "null"
        match d.appendChild n tn with
        | .error e => .thrown d h e
        | .ok d => .ok d h ()
    else .ok d h ()

/-- The `parent` getter: refresh `this._parent` from the live node; when the
node has no parent, invoke the `parent` setter with `document.body` (appending
the node under the body as a side effect) and return the stored field. -/
def TagLegacy.getParent (h : TagLegacyState) (d : Doc) : JSResult TagLegacyState (Option Nat) :=
  match h._tag with
  | none => .thrown d h .typeError
  | some t =>
    match d.find t with
    | none => .thrown d h .typeError
    | some n =>
      let h := { h with _parent := n.parent }
      match n.parent with
      | some p => .ok d h (some p)
      | none =>
        match TagLegacy.setParent h (.node d.body) d with
        | .thrown d h e => .thrown d h e
        | .ok d h _ => .ok d h h._parent

/-- The `children` getter: snapshot `this.tag.childNodes` into a fresh array. -/
def TagLegacy.getChildren (h : TagLegacyState) (d : Doc) : JSResult TagLegacyState (List Nat) :=
  match h._tag with
  | none => .thrown d h .typeError
  | some t =>
    match d.find t with
    | none => .thrown d h .typeError
    | some n => .ok d { h with _children := some (n.children.map ChildVal.node) } n.children

/-- `remove()`: detach the node and null the ownership reference. -/
def TagLegacy.remove (h : TagLegacyState) (d : Doc) : JSResult TagLegacyState Unit :=
  match h._tag with
  | none => .thrown d h .typeError
  | some t => .ok (d.detach t) { h with _tag := none } ()

/-- `reference(tag)`: discard the current node via `remove()` (which throws a
`TypeError` when the owned reference is already null), then adopt the given
node. -/
def TagLegacy.reference (h : TagLegacyState) (tag : Nat) (d : Doc) :
    JSResult TagLegacyState Unit :=
  match TagLegacy.remove h d with
  | .thrown d h e => .thrown d h e
  | .ok d h _ => .ok d { h with _tag := some tag } ()

/-- A JS indexed array write `a[i] = v`, which extends the array and leaves
holes (`none`) between the old length and `i` when `i` is past the end. -/
def sparseSet (a : List (Option Nat)) (i : Nat) (v : Nat) : List (Option Nat) :=
  if i < a.length then a.set i (some v)
  else a ++ List.replicate (i - a.length) none ++ [some v]

/-- The loop of the `relatives` getter: `relativeArray[i] = relatives[i]`
skipping the handle's own node — an indexed write, so skipping leaves a hole
at the skipped index (when a later sibling is written past it). -/
def relativesLoop (tag : Option Nat) : List Nat → Nat → List (Option Nat) → List (Option Nat)
  | [], _, acc => acc
  | c :: rest, i, acc =>
    relativesLoop tag rest (i + 1) (if some c ≠ tag then sparseSet acc i c else acc)

/-- The element children of a node (the live `HTMLCollection` `.children`,
which contains elements only, unlike `childNodes`). -/
def Doc.elementChildrenOf (d : Doc) (i : Nat) : List Nat :=
  (d.childrenOf i).filter (fun c => (d.find c).map (·.kind) == some NodeKind.element)

/-- The `relatives` getter: `this.parent.children` (the parent getter, with its
side effect, then the parent node's element children) copied index by index
into a fresh array, skipping the handle's own node. -/
def TagLegacy.relatives (h : TagLegacyState) (d : Doc) :
    JSResult TagLegacyState (List (Option Nat)) :=
  match TagLegacy.getParent h d with
  | .thrown d h e => .thrown d h e
  | .ok d h pv =>
    match pv with
    | none => .thrown d h .typeError
    | some p =>
      let rels := d.elementChildrenOf p
      let arr := relativesLoop h._tag rels 0 []
      .ok d { h with _relatives := some arr } arr

/-- The `toPosition` argument: a numeric index or the sentinels. -/
inductive PosArg where
  | first
  | last
  | idx (k : Nat)
deriving DecidableEq, Repr

/-- `Array.prototype.splice(k, 0, x)` for `0 ≤ k`: insert at `k`, clamped to
the length. -/
def jsSplice0 (l : List (Option Nat)) (k : Nat) (x : Option Nat) : List (Option Nat) :=
  if k ≥ l.length then l ++ [x] else l.insertIdx k x

/-- The fragment-filling loop `for (let item of relativeList)
fragment.appendChild(item)`.  Iterating a sparse array yields `undefined` at
each hole, and `appendChild(undefined)` throws a `TypeError`; each successful
step detaches the node from the live tree into the fragment (represented by
the ordered id list of its children). -/
def fragmentFill : List (Option Nat) → Doc → List Nat → Doc × List Nat × Option JSError
  | [], d, frag => (d, frag, none)
  | none :: _, d, frag => (d, frag, some .typeError)
  | some c :: rest, d, frag => fragmentFill rest (d.detach c) (frag ++ [c])

/-- `parent.appendChild(fragment)`: the fragment's children are moved, in
order, to the end of the parent's child list. -/
def appendFragment (p : Nat) : List Nat → Doc → Doc × Option JSError
  | [], d => (d, none)
  | c :: rest, d =>
    match d.appendChild p c with
    | .ok d => appendFragment p rest d
    | .error e => (d, some e)

/-- `toPosition(position)`: build the relatives list, splice the handle's own
node in at the requested position ("first" prepends, "last" pushes, a number
splices at that index), move every entry into a fresh document fragment, and
append the fragment to the stored parent. -/
def TagLegacy.toPosition (h : TagLegacyState) (position : PosArg) (d : Doc) :
    JSResult TagLegacyState Unit :=
  match TagLegacy.relatives h d with
  | .thrown d h e => .thrown d h e
  | .ok d h relativeList =>
    let relativeList :=
      match position with
      | .first => jsSplice0 relativeList 0 h._tag
      | .last => relativeList ++ [h._tag]
      | .idx k => jsSplice0 relativeList k h._tag
    match fragmentFill relativeList d [] with
    | (d, _, some e) => .thrown d h e
    | (d, frag, none) =>
      match h._parent with
      | none => .thrown d h .typeError
      | some p =>
        match appendFragment p frag d with
        | (d, some e) => .thrown d h e
        | (d, none) => .ok d h ()

/-- The `type` setter: when the assigned type differs from the stored one, it
evaluates `this.attributes`, `this.parent` and `this.children` (the three
getters, with their side effects), constructs `new Tag(type, attributes,
parent, children)` — but `Tag` in this file segment is the
`constructor(id, debug)` class, which merely does `getElementById(type)` —
removes the old node, and assigns `newTag.tag`, a property the `Tag` class
does not have, to `this._tag`. -/
structure TagB where
  element : Option Nat
  debug : Bool
deriving DecidableEq, Repr

/-- `new Tag(id, debug)` (the src/lib/DOMKit.js class named `Tag`): a string
first argument is looked up with `document.getElementById`; any other first
argument yields a fresh div. -/
def TagB.construct (id : Option String) (debug : Bool) (d : Doc) : Doc × TagB :=
  match id with
  | some s => (d, { element := d.getElementById s, debug := debug })
  | none =>
    let (d, n) := d.createElement "div"
    (d, { element := some n, debug := debug })

/-- Reading `newTag.tag` on a `TagB`: the class defines no `tag` member, so
the property access yields undefined. -/
def TagB.tagProp (_ : TagB) : Option Nat := none

def TagLegacy.setType (h : TagLegacyState) (type : String) (freshObjId : Nat) (d : Doc) :
    JSResult TagLegacyState Unit :=
  let typeOld := h._type
  let h := { h with _type := some type }
  if some type ≠ typeOld then
    match TagLegacy.getAttributes h freshObjId d with
    | .thrown d h e => .thrown d h e
    | .ok d h attrsObj =>
      match TagLegacy.getParent h d with
      | .thrown d h e => .thrown d h e
      | .ok d h _ =>
        match TagLegacy.getChildren h d with
        | .thrown d h e => .thrown d h e
        | .ok d h _ =>
          -- new Tag(this._type, this.attributes, this.parent, this.children):
          -- the extra arguments are ignored by TagB's constructor; the second
          -- (the attributes object) becomes its truthy `debug` flag.
          let _ := attrsObj
          let (d, newTag) := TagB.construct (some type) true d
          match TagLegacy.remove h d with
          | .thrown d h e => .thrown d h e
          | .ok d h _ => .ok d { h with _tag := newTag.tagProp } ()
  else .ok d h ()

/-- The instance fields of the src/unnamed/part_000 `Tag` (the
`constructor(element, debug)` variant), including its `stored` side table. -/
structure TagCState where
  element : Option Nat
  storedName : Option String
  storedParentElem : Option (Option Nat)
  storedAttributes : Option (List (String × String))
deriving DecidableEq, Repr

/-- The constructor's first argument: an existing node, a string, or nothing. -/
inductive TagCArg where
  | elem (n : Nat)
  | str (s : String)
  | undef
deriving DecidableEq, Repr

/-- In the part_000 constructor the guard reads `typeof id`, but `id` is not
declared anywhere in that scope (the parameter is named `element`), so the
unresolvable reference evaluates to "undefined". -/
def typeofUndeclaredId : String := "undefined"

/-- `new Tag(element, debug)` (src/unnamed/part_000): an `HTMLElement`
argument is adopted; otherwise the `typeof id === 'string'` branch — which
would adopt `document.getElementById(element)` — is tested, and failing it, a
fresh div is created. -/
def TagC.construct (arg : TagCArg) (d : Doc) : Doc × TagCState :=
  match arg with
  | .elem n => (d, { element := some n, storedName := none, storedParentElem := none, storedAttributes := none })
  | _ =>
    if typeofUndeclaredId == "string" then
      -- dead branch: document.getElementById(element) || document.createElement('div')
      match d.getElementById (match arg with | .str s => s | _ => "undefined") with
      | some n => (d, { element := some n, storedName := none, storedParentElem := none, storedAttributes := none })
      | none =>
        let (d, n) := d.createElement "div"
        (d, { element := some n, storedName := none, storedParentElem := none, storedAttributes := none })
    else
      let (d, n) := d.createElement "div"
      (d, { element := some n, storedName := none, storedParentElem := none, storedAttributes := none })

/-- The JS `a || b` default for the string stored name (both null/undefined
and the empty string are falsy). -/
def jsOrStr (a : Option String) (b : String) : String :=
  match a with
  | some s => if s == "" then b else s
  | none => b

/-- `fix()`: when the owned element reference is gone, recreate a detached
placeholder element of the last stored name, defaulting to div. -/
def TagC.fix (h : TagCState) (d : Doc) : Doc × TagCState :=
  match h.element with
  | some _ => (d, h)
  | none =>
    let (d, n) := d.createElement (jsOrStr h.storedName "div")
    (d, { h with element := some n })

/-- The argument of the part_000 `parent` setter as exercised here: the very
handle the setter runs on, some node, or undefined. -/
inductive TagCParentArg where
  | selfObj
  | elem (n : Nat)
  | undef
deriving DecidableEq, Repr

/-- The part_000 `parent` setter: `fix()`, then a `Tag` argument whose element
differs from this one's is appended to; a raw node likewise (guarded against
the node being this element); an absent parent triggers the (broken)
deparenting branch; everything else — in particular every self-parenting
attempt — falls through to the debug-only `uxp()` warning, mutating nothing. -/
def TagC.setParent (h : TagCState) (p : TagCParentArg) (d : Doc) :
    JSResult TagCState Unit :=
  let (d, h) := TagC.fix h d
  match p with
  | .selfObj =>
    -- parent instanceof Tag, but parent.element === this.element (it is the
    -- same object), and a Tag is neither an HTMLElement nor falsy: uxp().
    .ok d h ()
  | .elem n =>
    if some n ≠ h.element then
      match h.element with
      | none => .thrown d h .typeError
      | some e =>
        match d.appendChild n e with
        | .error er => .thrown d h er
        | .ok d => .ok d { h with storedParentElem := some (some n) } ()
    else
      -- parent === this.element: not appended, not falsy: uxp().
      .ok d h ()
  | .undef =>
    -- this.parent.removeChild(this.element): the parent getter returns a Tag
    -- object, and Tag has no removeChild method.
    .thrown d h .typeError

/-- The part_000 `attributes` getter: restructure the live attribute
collection into a plain object. -/
def TagC.getAttributes (h : TagCState) (d : Doc) : JSResult TagCState (List (String × String)) :=
  match h.element with
  | none => .thrown d h .typeError
  | some e =>
    match d.find e with
    | none => .thrown d h .typeError
    | some n => .ok d h (n.attrs.foldl (fun acc kv => setAttr acc kv.1 kv.2) [])

/-- Truthiness of a value under a key of a JS object mapping keys to strings:
absent keys are undefined (falsy) and the empty string is falsy. -/
def jsTruthyAt (m : List (String × String)) (k : String) : Bool :=
  match getAttr? m k with
  | none => false
  | some v => v != ""

/-- The part_000 `attributes` setter: `fix()`, then for an object argument,
first remove every existing attribute whose key is absent or falsy in the new
mapping, then write every entry of the new mapping, and store it.  A
non-object argument only warns. -/
def TagC.setAttributes (h : TagCState) (m : Option (List (String × String))) (d : Doc) :
    JSResult TagCState Unit :=
  let (d, h) := TagC.fix h d
  match m with
  | none => .ok d h ()
  | some entries =>
    match TagC.getAttributes h d with
    | .thrown d h e => .thrown d h e
    | .ok d h current =>
      match h.element with
      | none => .thrown d h .typeError
      | some e =>
        let d := current.foldl
          (fun (d : Doc) (kv : String × String) =>
            if jsTruthyAt entries kv.1 then d else d.removeAttribute e kv.1) d
        let d := entries.foldl
          (fun (d : Doc) (kv : String × String) => d.setAttribute e kv.1 kv.2) d
        .ok d { h with storedAttributes := some entries } ()

/-! ### The constructor's children loop -/

/-- How many string children a child list has (each allocates one text node). -/
def numStrs : List ChildVal → Nat
  | [] => 0
  | .str _ :: t => numStrs t + 1
  | .node _ :: t => numStrs t

/-- The ids the children end up with, given the first fresh id: a string child
consumes the next fresh id, a node child contributes its own id. -/
def expectedIds : List ChildVal → Nat → List Nat
  | [], _ => []
  | .str _ :: t, f => f :: expectedIds t (f + 1)
  | .node n :: t, f => n :: expectedIds t f

/-- The (fresh id, contents) pairs of the text nodes the children loop makes. -/
def textsOf : List ChildVal → Nat → List (Nat × String)
  | [], _ => []
  | .str s :: t, f => (f, s) :: textsOf t (f + 1)
  | .node _ :: t, f => textsOf t f

/-- The entries of a mapping whose values are truthy (a nonempty string) —
what claim C8 asserts the element ends up carrying. -/
def truthyEntries (m : List (String × String)) : List (String × String) :=
  m.filter (fun kv => kv.2 != "")

/-- The error of a thrown outcome, `none` for a normal one. -/
def JSResult.thrownWith {σ α : Type} : JSResult σ α → Option JSError
  | .ok _ _ _ => none
  | .thrown _ _ e => some e

/-- The handle state carried by an outcome. -/
def JSResult.state {σ α : Type} : JSResult σ α → σ
  | .ok _ s _ => s
  | .thrown _ s _ => s

/-- Whether the operation completed without throwing. -/
def JSResult.isOk {σ α : Type} : JSResult σ α → Bool
  | .ok _ _ _ => true
  | .thrown _ _ _ => false

/-- The returned value, or a default when the operation threw. -/
def JSResult.valueOr {σ α : Type} (dflt : α) : JSResult σ α → α
  | .ok _ _ v => v
  | .thrown _ _ _ => dflt

/-- Concrete document for claim C1: a body whose element children are a div, a
p (the handle's node, in the middle) and another div. -/
def c1doc : Doc :=
  { nodes := [(0, { Node.mkElement "body" with children := [1, 2, 3] }),
              (1, { Node.mkElement "div" with parent := some 0 }),
              (2, { Node.mkElement "p" with parent := some 0 }),
              (3, { Node.mkElement "div" with parent := some 0 })],
    body := 0, nextId := 4 }

def c1state : TagLegacyState :=
  { _type := some "p", _attributes := none, _parent := some 0,
    _children := none, _relatives := none, _tag := some 2 }

/-- Concrete document for claim C3: a p element attached under the body. -/
def c3doc : Doc :=
  { nodes := [(0, { Node.mkElement "body" with children := [1] }),
              (1, { Node.mkElement "p" with parent := some 0 })],
    body := 0, nextId := 2 }

def c3state : TagLegacyState :=
  { _type := some "p", _attributes := none, _parent := some 0,
    _children := none, _relatives := none, _tag := some 1 }

/-- Concrete document for claim C2's witness: the body plus one detached div
to serve as a node-reference child. -/
def c2doc : Doc :=
  { nodes := [(0, Node.mkElement "body"), (1, Node.mkElement "div")],
    body := 0, nextId := 2 }

/-- Concrete document for claim C4's witness: a div with one existing
attribute, attached under the body. -/
def c4doc : Doc :=
  { nodes := [(0, { Node.mkElement "body" with children := [1] }),
              (1, { Node.mkElement "div" with parent := some 0, attrs := [("old", "1")] })],
    body := 0, nextId := 2 }

def c4state : TagLegacyState :=
  { _type := some "div", _attributes := none, _parent := some 0,
    _children := none, _relatives := none, _tag := some 1 }

/-- Concrete document for claim C5's witness: a div attached under the body,
wrapped by both class variants. -/
def c5doc : Doc :=
  { nodes := [(0, { Node.mkElement "body" with children := [1] }),
              (1, { Node.mkElement "div" with parent := some 0 })],
    body := 0, nextId := 2 }

def c5hc : TagCState :=
  { element := some 1, storedName := none, storedParentElem := none, storedAttributes := none }

def c5h : TagLegacyState :=
  { _type := some "div", _attributes := none, _parent := some 0,
    _children := none, _relatives := none, _tag := some 1 }

/-- Concrete document for claim C6: a p element attached under the body. -/
def c6doc : Doc :=
  { nodes := [(0, { Node.mkElement "body" with children := [1] }),
              (1, { Node.mkElement "p" with parent := some 0 })],
    body := 0, nextId := 2 }

def c6state : TagLegacyState :=
  { _type := some "p", _attributes := none, _parent := some 0,
    _children := none, _relatives := none, _tag := some 1 }

/-- A part_000 handle whose element reference is gone, with a stored name, for
claim C6's `fix` conjuncts. -/
def c6hc : TagCState :=
  { element := none, storedName := some "span", storedParentElem := none, storedAttributes := none }

/-- Concrete document for claim C7: just the body. -/
def c7doc : Doc := { nodes := [(0, Node.mkElement "body")], body := 0, nextId := 1 }

/-- Concrete document for claim C8: a div with attributes a=1 and x=2. -/
def c8doc : Doc :=
  { nodes := [(0, { Node.mkElement "body" with children := [1] }),
              (1, { Node.mkElement "div" with parent := some 0, attrs := [("a", "1"), ("x", "2")] })],
    body := 0, nextId := 2 }

def c8state : TagCState :=
  { element := some 1, storedName := none, storedParentElem := none, storedAttributes := none }

/-- Concrete document for claim C9: the body plus an element whose `id`
attribute is "x" — the element the constructor would adopt if its ID-lookup
branch were reachable. -/
def c9doc : Doc :=
  { nodes := [(0, { Node.mkElement "body" with children := [1] }),
              (1, { Node.mkElement "div" with parent := some 0, attrs := [("id", "x")] })],
    body := 0, nextId := 2 }

/-- Concrete document for claim C10: the body plus a detached div. -/
def c10doc : Doc :=
  { nodes := [(0, Node.mkElement "body"), (1, Node.mkElement "div")],
    body := 0, nextId := 2 }

def c10state : TagLegacyState :=
  { _type := some "div", _attributes := none, _parent := none,
    _children := none, _relatives := none, _tag := some 1 }

/-! ### Store lemmas -/

theorem lookupNode_nil (j : Nat) : lookupNode [] j = none := rfl

theorem lookupNode_cons (p : Nat × Node) (t : List (Nat × Node)) (j : Nat) :
    lookupNode (p :: t) j = if p.1 = j then some p.2 else lookupNode t j := by
  by_cases h : p.1 = j
  · simp [lookupNode, List.find?_cons_of_pos, h]
  · simp [lookupNode, List.find?_cons_of_neg, h]

theorem updNodes_nil (i : Nat) (f : Node → Node) : updNodes [] i f = [] := rfl

theorem updNodes_cons (p : Nat × Node) (t : List (Nat × Node)) (i : Nat) (f : Node → Node) :
    updNodes (p :: t) i f = (if p.1 = i then (p.1, f p.2) else p) :: updNodes t i f := by
  by_cases h : p.1 = i <;> simp [updNodes, h]

theorem lookupNode_updNodes_self (l : List (Nat × Node)) (i : Nat) (f : Node → Node) :
    lookupNode (updNodes l i f) i = (lookupNode l i).map f := by
  induction l with
  | nil => rfl
  | cons p t ih =>
    rw [updNodes_cons]
    by_cases hp : p.1 = i
    · simp [lookupNode_cons, hp]
    · simp [lookupNode_cons, hp, ih]

theorem lookupNode_updNodes_ne (l : List (Nat × Node)) (i j : Nat) (f : Node → Node)
    (hj : j ≠ i) : lookupNode (updNodes l i f) j = lookupNode l j := by
  induction l with
  | nil => rfl
  | cons p t ih =>
    rw [updNodes_cons]
    by_cases hp : p.1 = i
    · have : i ≠ j := fun hh => hj hh.symm
      simp [lookupNode_cons, hp, this, ih]
    · by_cases hpj : p.1 = j
      · simp [lookupNode_cons, hp, hpj, hj]
      · simp [lookupNode_cons, hp, hpj, ih]

theorem lookupNode_append_ne (l : List (Nat × Node)) (n j : Nat) (x : Node)
    (hj : j ≠ n) : lookupNode (l ++ [(n, x)]) j = lookupNode l j := by
  induction l with
  | nil =>
    have : n ≠ j := fun hh => hj hh.symm
    simp [lookupNode_cons, lookupNode_nil, this]
  | cons p t ih =>
    by_cases hp : p.1 = j
    · simp [lookupNode_cons, hp]
    · simp [lookupNode_cons, hp, ih]

theorem lookupNode_eq_none_of_lt (l : List (Nat × Node)) (m : Nat)
    (h : ∀ p ∈ l, p.1 < m) : lookupNode l m = none := by
  induction l with
  | nil => rfl
  | cons p t ih =>
    have hp : p.1 ≠ m := by
      have := h p (List.mem_cons_self p t)
      omega
    rw [lookupNode_cons, if_neg hp]
    exact ih fun q hq => h q (List.mem_cons_of_mem p hq)

theorem lookupNode_append_self (l : List (Nat × Node)) (n : Nat) (x : Node)
    (h : lookupNode l n = none) : lookupNode (l ++ [(n, x)]) n = some x := by
  induction l with
  | nil => simp [lookupNode_cons, lookupNode_nil]
  | cons p t ih =>
    rw [lookupNode_cons] at h
    by_cases hp : p.1 = n
    · rw [if_pos hp] at h
      exact absurd h (by simp)
    · rw [if_neg hp] at h
      simp only [List.cons_append, lookupNode_cons, if_neg hp]
      exact ih h

theorem updNodes_fst (l : List (Nat × Node)) (i : Nat) (f : Node → Node) :
    (updNodes l i f).map Prod.fst = l.map Prod.fst := by
  induction l with
  | nil => rfl
  | cons p t ih =>
    rw [updNodes_cons]
    by_cases hp : p.1 = i <;> simp [hp, ih]

/-! ### Document operation lemmas -/

theorem Doc.find_lt_of_idsOk {d : Doc} {i : Nat} {n : Node}
    (hids : d.idsOk) (h : d.find i = some n) : i < d.nextId := by
  by_contra hlt
  have : d.find i = none := by
    apply lookupNode_eq_none_of_lt
    intro p hp
    have := hids p hp
    omega
  rw [this] at h
  exact Option.noConfusion h

theorem Doc.find_nextId (d : Doc) (hids : d.idsOk) : d.find d.nextId = none := by
  apply lookupNode_eq_none_of_lt
  intro p hp
  exact hids p hp

theorem Doc.find_createElement_self (d : Doc) (ty : String) (hids : d.idsOk) :
    (d.createElement ty).1.find d.nextId = some (Node.mkElement ty) := by
  exact lookupNode_append_self _ _ _ (d.find_nextId hids)

theorem Doc.find_createElement_ne (d : Doc) (ty : String) (j : Nat) (hj : j ≠ d.nextId) :
    (d.createElement ty).1.find j = d.find j :=
  lookupNode_append_ne _ _ _ _ hj

theorem Doc.find_createTextNode_self (d : Doc) (s : String) (hids : d.idsOk) :
    (d.createTextNode s).1.find d.nextId = some (Node.mkText s) := by
  exact lookupNode_append_self _ _ _ (d.find_nextId hids)

theorem Doc.find_createTextNode_ne (d : Doc) (s : String) (j : Nat) (hj : j ≠ d.nextId) :
    (d.createTextNode s).1.find j = d.find j :=
  lookupNode_append_ne _ _ _ _ hj

theorem Doc.idsOk_createElement (d : Doc) (ty : String) (hids : d.idsOk) :
    (d.createElement ty).1.idsOk := by
  intro p hp
  rcases List.mem_append.1 hp with h | h
  · have := hids p h
    simp only [Doc.createElement]
    omega
  · simp only [List.mem_singleton] at h
    subst h
    simp only [Doc.createElement]
    omega

theorem Doc.idsOk_createTextNode (d : Doc) (s : String) (hids : d.idsOk) :
    (d.createTextNode s).1.idsOk := by
  intro p hp
  rcases List.mem_append.1 hp with h | h
  · have := hids p h
    simp only [Doc.createTextNode]
    omega
  · simp only [List.mem_singleton] at h
    subst h
    simp only [Doc.createTextNode]
    omega

theorem mem_updNodes_fst {l : List (Nat × Node)} {i : Nat} {f : Node → Node} {q : Nat × Node}
    (h : q ∈ updNodes l i f) : q.1 ∈ l.map Prod.fst := by
  have : q.1 ∈ (updNodes l i f).map Prod.fst := List.mem_map_of_mem Prod.fst h
  rwa [updNodes_fst] at this

theorem Doc.idsOk_of_updNodes (d : Doc) (ns : List (Nat × Node))
    (hfst : ns.map Prod.fst = d.nodes.map Prod.fst) (hids : d.idsOk) :
    Doc.idsOk { d with nodes := ns } := by
  intro p hp
  have h1 : p.1 ∈ d.nodes.map Prod.fst := by
    rw [← hfst]
    exact List.mem_map_of_mem Prod.fst hp
  rcases List.mem_map.1 h1 with ⟨q, hq, hq1⟩
  have := hids q hq
  simp only
  omega

theorem Doc.idsOk_attach (d : Doc) (p c : Nat) (hids : d.idsOk) : (d.attach p c).idsOk := by
  apply Doc.idsOk_of_updNodes _ _ _ hids
  rw [updNodes_fst, updNodes_fst]

theorem Doc.idsOk_detach (d : Doc) (c : Nat) (hids : d.idsOk) : (d.detach c).idsOk := by
  unfold Doc.detach
  cases hpc : d.parentOf c with
  | none => exact hids
  | some p =>
    apply Doc.idsOk_of_updNodes _ _ _ hids
    rw [updNodes_fst, updNodes_fst]

theorem Doc.idsOk_setAttribute (d : Doc) (i : Nat) (k v : String) (hids : d.idsOk) :
    (d.setAttribute i k v).idsOk := by
  apply Doc.idsOk_of_updNodes _ _ _ hids
  rw [updNodes_fst]

theorem Doc.idsOk_removeAttribute (d : Doc) (i : Nat) (k : String) (hids : d.idsOk) :
    (d.removeAttribute i k).idsOk := by
  apply Doc.idsOk_of_updNodes _ _ _ hids
  rw [updNodes_fst]

theorem Doc.detach_of_no_parent (d : Doc) (c : Nat) (h : d.parentOf c = none) :
    d.detach c = d := by
  unfold Doc.detach
  rw [h]

theorem Doc.find_attach_parent (d : Doc) (p c : Nat) (hpc : p ≠ c) :
    (d.attach p c).find p = (d.find p).map (fun n => { n with children := n.children ++ [c] }) := by
  unfold Doc.attach Doc.find
  simp only
  rw [lookupNode_updNodes_ne _ _ _ _ hpc, lookupNode_updNodes_self]

theorem Doc.find_attach_child (d : Doc) (p c : Nat) (hpc : p ≠ c) :
    (d.attach p c).find c = (d.find c).map (fun n => { n with parent := some p }) := by
  unfold Doc.attach Doc.find
  simp only
  rw [lookupNode_updNodes_self, lookupNode_updNodes_ne _ _ _ _ (fun h => hpc h.symm)]

theorem Doc.find_attach_other (d : Doc) (p c j : Nat) (hjp : j ≠ p) (hjc : j ≠ c) :
    (d.attach p c).find j = d.find j := by
  unfold Doc.attach Doc.find
  simp only
  rw [lookupNode_updNodes_ne _ _ _ _ hjc, lookupNode_updNodes_ne _ _ _ _ hjp]

theorem Doc.appendChild_detached (d : Doc) (p c : Nat) (hne : c ≠ p)
    (hpar : d.parentOf c = none) : d.appendChild p c = .ok (d.attach p c) := by
  unfold Doc.appendChild
  rw [if_neg (by simp [hne]), Doc.detach_of_no_parent d c hpar]

theorem Doc.attach_body (d : Doc) (p c : Nat) : (d.attach p c).body = d.body := rfl

theorem Doc.attach_nextId (d : Doc) (p c : Nat) : (d.attach p c).nextId = d.nextId := rfl

/-! ### Attribute list lemmas -/

theorem getAttr?_nil (k : String) : getAttr? [] k = none := rfl

theorem getAttr?_cons (kv : String × String) (t : List (String × String)) (k : String) :
    getAttr? (kv :: t) k = if kv.1 = k then some kv.2 else getAttr? t k := by
  by_cases h : kv.1 = k
  · simp [getAttr?, List.find?_cons_of_pos, h]
  · simp [getAttr?, List.find?_cons_of_neg, h]

theorem setAttr_nil (k v : String) : setAttr [] k v = [(k, v)] := rfl

theorem setAttr_cons (kv : String × String) (t : List (String × String)) (k v : String) :
    setAttr (kv :: t) k v = if kv.1 = k then (k, v) :: t else kv :: setAttr t k v := by
  by_cases h : kv.1 = k <;> simp [setAttr, h]

theorem getAttr?_setAttr_self (l : List (String × String)) (k v : String) :
    getAttr? (setAttr l k v) k = some v := by
  induction l with
  | nil =>
    rw [setAttr_nil, getAttr?_cons]
    simp
  | cons kv t ih =>
    rw [setAttr_cons]
    by_cases h : kv.1 = k
    · rw [if_pos h, getAttr?_cons]
      simp
    · rw [if_neg h, getAttr?_cons, if_neg h]
      exact ih

theorem getAttr?_setAttr_ne (l : List (String × String)) (k v k' : String) (h : k' ≠ k) :
    getAttr? (setAttr l k v) k' = getAttr? l k' := by
  have h2 : k ≠ k' := fun hh => h hh.symm
  induction l with
  | nil =>
    rw [setAttr_nil, getAttr?_cons, if_neg h2, getAttr?_nil]
  | cons kv t ih =>
    rw [setAttr_cons]
    by_cases hk : kv.1 = k
    · rw [if_pos hk, getAttr?_cons, if_neg h2, getAttr?_cons, if_neg (hk ▸ h2)]
    · rw [if_neg hk, getAttr?_cons, getAttr?_cons, ih]

theorem setAttr_fst_of_mem (l : List (String × String)) (k v : String)
    (h : k ∈ l.map Prod.fst) : (setAttr l k v).map Prod.fst = l.map Prod.fst := by
  induction l with
  | nil => simp at h
  | cons kv t ih =>
    rw [setAttr_cons]
    by_cases hk : kv.1 = k
    · simp [hk]
    · simp only [List.map_cons, List.mem_cons] at h
      rcases h with h | h
      · exact absurd h.symm hk
      · rw [if_neg hk]
        simp [ih h]

theorem setAttr_fst_of_not_mem (l : List (String × String)) (k v : String)
    (h : k ∉ l.map Prod.fst) : (setAttr l k v).map Prod.fst = l.map Prod.fst ++ [k] := by
  induction l with
  | nil => simp [setAttr]
  | cons kv t ih =>
    simp only [List.map_cons, List.mem_cons] at h
    push_neg at h
    rw [setAttr_cons, if_neg (fun hh => h.1 hh.symm)]
    simp [ih h.2]

theorem setAttr_of_not_mem (l : List (String × String)) (k v : String)
    (h : k ∉ l.map Prod.fst) : setAttr l k v = l ++ [(k, v)] := by
  induction l with
  | nil => rfl
  | cons kv t ih =>
    simp only [List.map_cons, List.mem_cons] at h
    push_neg at h
    rw [setAttr_cons, if_neg (fun hh => h.1 hh.symm)]
    simp [ih h.2]

theorem nodupKeys_setAttr (l : List (String × String)) (k v : String)
    (h : (l.map Prod.fst).Nodup) : ((setAttr l k v).map Prod.fst).Nodup := by
  by_cases hk : k ∈ l.map Prod.fst
  · rwa [setAttr_fst_of_mem _ _ _ hk]
  · rw [setAttr_fst_of_not_mem _ _ _ hk]
    simp [List.nodup_append, h, hk]

theorem foldl_setAttr_append (A : List (String × String)) :
    ∀ (l : List (String × String)), (A.map Prod.fst).Nodup →
      (∀ k ∈ A.map Prod.fst, k ∉ l.map Prod.fst) →
      A.foldl (fun a kv => setAttr a kv.1 kv.2) l = l ++ A := by
  induction A with
  | nil => intro l _ _; simp
  | cons kv t ih =>
    intro l hA hdisj
    simp only [List.map_cons, List.nodup_cons] at hA
    have hstep : setAttr l kv.1 kv.2 = l ++ [kv] := by
      rw [setAttr_of_not_mem _ _ _ (hdisj kv.1 (by simp))]
    simp only [List.foldl_cons, hstep]
    rw [ih (l ++ [kv]) hA.2]
    · simp
    · intro k hk
      simp only [List.map_append, List.mem_append, List.map_cons] at *
      push_neg
      constructor
      · exact hdisj k (List.mem_cons_of_mem kv.1 hk)
      · simp only [List.map_nil, List.mem_cons, List.not_mem_nil]
        intro hcon
        rcases hcon with hcon | hcon
        · exact hA.1 (hcon ▸ hk)
        · exact hcon

theorem foldl_setAttr_nil (A : List (String × String)) (hA : (A.map Prod.fst).Nodup) :
    A.foldl (fun a kv => setAttr a kv.1 kv.2) [] = A := by
  rw [foldl_setAttr_append A [] hA (by simp)]
  simp

theorem getAttr?_foldl_setAttr_not_mem (A : List (String × String)) :
    ∀ (l : List (String × String)) (k : String), k ∉ A.map Prod.fst →
      getAttr? (A.foldl (fun a kv => setAttr a kv.1 kv.2) l) k = getAttr? l k := by
  induction A with
  | nil => intro l k _; rfl
  | cons kv t ih =>
    intro l k hk
    simp only [List.map_cons, List.mem_cons] at hk
    push_neg at hk
    simp only [List.foldl_cons]
    rw [ih _ _ hk.2, getAttr?_setAttr_ne _ _ _ _ hk.1]

theorem getAttr?_foldl_setAttr_mem (A : List (String × String)) :
    ∀ (l : List (String × String)) (k v : String), (A.map Prod.fst).Nodup →
      (k, v) ∈ A →
      getAttr? (A.foldl (fun a kv => setAttr a kv.1 kv.2) l) k = some v := by
  induction A with
  | nil => intro l k v _ hm; simp at hm
  | cons kv t ih =>
    intro l k v hA hm
    simp only [List.map_cons, List.nodup_cons] at hA
    simp only [List.foldl_cons]
    rcases List.mem_cons.1 hm with hm | hm
    · subst hm
      have hk : k ∉ t.map Prod.fst := hA.1
      rw [getAttr?_foldl_setAttr_not_mem t _ _ hk, getAttr?_setAttr_self]
    · exact ih _ _ _ hA.2 hm

theorem nodupKeys_foldl_setAttr (A : List (String × String)) :
    ∀ (l : List (String × String)), (l.map Prod.fst).Nodup →
      (((A.foldl (fun a kv => setAttr a kv.1 kv.2) l)).map Prod.fst).Nodup := by
  induction A with
  | nil => intro l h; exact h
  | cons kv t ih =>
    intro l h
    simp only [List.foldl_cons]
    exact ih _ (nodupKeys_setAttr _ _ _ h)

theorem getAttr?_of_mem_nodup (l : List (String × String)) (k v : String)
    (h : (l.map Prod.fst).Nodup) (hm : (k, v) ∈ l) : getAttr? l k = some v := by
  induction l with
  | nil => simp at hm
  | cons kv t ih =>
    simp only [List.map_cons, List.nodup_cons] at h
    rcases List.mem_cons.1 hm with hm | hm
    · subst hm
      rw [getAttr?_cons, if_pos rfl]
    · rw [getAttr?_cons, if_neg]
      · exact ih h.2 hm
      · intro hcon
        apply h.1
        rw [hcon]
        exact List.mem_map_of_mem Prod.fst hm

theorem foldl_setAttr_getD (L : List (String × String)) :
    ∀ (l acc : List (String × String)),
      (∀ kv ∈ l, getAttr? L kv.1 = some kv.2) →
      l.foldl (fun a kv => setAttr a kv.1 ((getAttr? L kv.1).getD "")) acc =
        l.foldl (fun a kv => setAttr a kv.1 kv.2) acc := by
  intro l
  induction l with
  | nil => intro acc _; rfl
  | cons kv t ih =>
    intro acc h
    simp only [List.foldl_cons]
    rw [h kv (List.mem_cons_self kv t)]
    exact ih _ fun q hq => h q (List.mem_cons_of_mem kv hq)

theorem removeAttr_nil (k : String) : removeAttr [] k = [] := rfl

theorem removeAttr_cons (kv : String × String) (t : List (String × String)) (k : String) :
    removeAttr (kv :: t) k = if kv.1 = k then removeAttr t k else kv :: removeAttr t k := by
  by_cases h : kv.1 = k <;> simp [removeAttr, h]

theorem getAttr?_removeAttr_self (l : List (String × String)) (k : String) :
    getAttr? (removeAttr l k) k = none := by
  induction l with
  | nil => rfl
  | cons kv t ih =>
    rw [removeAttr_cons]
    by_cases h : kv.1 = k
    · rw [if_pos h]
      exact ih
    · rw [if_neg h, getAttr?_cons, if_neg h]
      exact ih

theorem getAttr?_removeAttr_ne (l : List (String × String)) (k k' : String) (h : k' ≠ k) :
    getAttr? (removeAttr l k) k' = getAttr? l k' := by
  induction l with
  | nil => rfl
  | cons kv t ih =>
    rw [removeAttr_cons]
    by_cases hk : kv.1 = k
    · rw [if_pos hk, getAttr?_cons, if_neg (by rw [hk]; exact fun hh => h hh.symm)]
      exact ih
    · rw [if_neg hk, getAttr?_cons, getAttr?_cons]
      by_cases hk' : kv.1 = k'
      · rw [if_pos hk', if_pos hk']
      · rw [if_neg hk', if_neg hk']
        exact ih

/-! ### Folds of attribute writes over the document -/

theorem Doc.find_setAttribute_self (d : Doc) (e : Nat) (k v : String) :
    (d.setAttribute e k v).find e = (d.find e).map (fun n => { n with attrs := setAttr n.attrs k v }) := by
  show lookupNode (updNodes d.nodes e fun n => { n with attrs := setAttr n.attrs k v }) e =
    (lookupNode d.nodes e).map fun n => { n with attrs := setAttr n.attrs k v }
  exact lookupNode_updNodes_self _ _ _

theorem Doc.find_setAttribute_ne (d : Doc) (e j : Nat) (k v : String) (hj : j ≠ e) :
    (d.setAttribute e k v).find j = d.find j := by
  show lookupNode (updNodes d.nodes e fun n => { n with attrs := setAttr n.attrs k v }) j =
    lookupNode d.nodes j
  exact lookupNode_updNodes_ne _ _ _ _ hj

theorem Doc.find_removeAttribute_self (d : Doc) (e : Nat) (k : String) :
    (d.removeAttribute e k).find e = (d.find e).map (fun n => { n with attrs := removeAttr n.attrs k }) := by
  show lookupNode (updNodes d.nodes e fun n => { n with attrs := removeAttr n.attrs k }) e =
    (lookupNode d.nodes e).map fun n => { n with attrs := removeAttr n.attrs k }
  exact lookupNode_updNodes_self _ _ _

theorem Doc.find_removeAttribute_ne (d : Doc) (e j : Nat) (k : String) (hj : j ≠ e) :
    (d.removeAttribute e k).find j = d.find j := by
  show lookupNode (updNodes d.nodes e fun n => { n with attrs := removeAttr n.attrs k }) j =
    lookupNode d.nodes j
  exact lookupNode_updNodes_ne _ _ _ _ hj

theorem Doc.find_foldl_setAttribute_self (A : List (String × String)) :
    ∀ (d : Doc) (e : Nat),
      (A.foldl (fun (d : Doc) (kv : String × String) => d.setAttribute e kv.1 kv.2) d).find e =
        (d.find e).map (fun n => { n with attrs := A.foldl (fun a kv => setAttr a kv.1 kv.2) n.attrs }) := by
  induction A with
  | nil =>
    intro d e
    cases h : d.find e <;> simp [h]
  | cons kv t ih =>
    intro d e
    simp only [List.foldl_cons]
    rw [ih, Doc.find_setAttribute_self]
    cases h : d.find e <;> simp [h]

theorem Doc.find_foldl_setAttribute_ne (A : List (String × String)) :
    ∀ (d : Doc) (e j : Nat), j ≠ e →
      (A.foldl (fun (d : Doc) (kv : String × String) => d.setAttribute e kv.1 kv.2) d).find j = d.find j := by
  induction A with
  | nil => intro d e j _; rfl
  | cons kv t ih =>
    intro d e j hj
    simp only [List.foldl_cons]
    rw [ih _ _ _ hj, Doc.find_setAttribute_ne _ _ _ _ _ hj]

theorem Doc.nextId_foldl_setAttribute (A : List (String × String)) :
    ∀ (d : Doc) (e : Nat),
      (A.foldl (fun (d : Doc) (kv : String × String) => d.setAttribute e kv.1 kv.2) d).nextId = d.nextId := by
  induction A with
  | nil => intro d e; rfl
  | cons kv t ih => intro d e; simp only [List.foldl_cons]; rw [ih]; rfl

theorem Doc.body_foldl_setAttribute (A : List (String × String)) :
    ∀ (d : Doc) (e : Nat),
      (A.foldl (fun (d : Doc) (kv : String × String) => d.setAttribute e kv.1 kv.2) d).body = d.body := by
  induction A with
  | nil => intro d e; rfl
  | cons kv t ih => intro d e; simp only [List.foldl_cons]; rw [ih]; rfl

theorem Doc.idsOk_foldl_setAttribute (A : List (String × String)) :
    ∀ (d : Doc) (e : Nat), d.idsOk →
      (A.foldl (fun (d : Doc) (kv : String × String) => d.setAttribute e kv.1 kv.2) d).idsOk := by
  induction A with
  | nil => intro d e h; exact h
  | cons kv t ih =>
    intro d e h
    simp only [List.foldl_cons]
    exact ih _ _ (Doc.idsOk_setAttribute _ _ _ _ h)

theorem getAttr?_eq_none_of_not_mem (l : List (String × String)) (k : String)
    (h : k ∉ l.map Prod.fst) : getAttr? l k = none := by
  induction l with
  | nil => rfl
  | cons kv t ih =>
    simp only [List.map_cons, List.mem_cons] at h
    push_neg at h
    rw [getAttr?_cons, if_neg (fun hh => h.1 hh.symm)]
    exact ih h.2

theorem Doc.find_foldl_condRemove_self (M : List (String × String)) (cur : List (String × String)) :
    ∀ (d : Doc) (e : Nat),
      (cur.foldl (fun (d : Doc) (kv : String × String) =>
          if jsTruthyAt M kv.1 then d else d.removeAttribute e kv.1) d).find e =
        (d.find e).map (fun n => { n with attrs := cur.foldl (fun a kv => if jsTruthyAt M kv.1 then a else removeAttr a kv.1) n.attrs }) := by
  induction cur with
  | nil => intro d e; cases h : d.find e <;> simp [h]
  | cons kv t ih =>
    intro d e
    simp only [List.foldl_cons]
    by_cases hc : jsTruthyAt M kv.1 = true
    · simp only [hc, if_true]
      exact ih d e
    · simp only [Bool.not_eq_true] at hc
      simp only [hc, Bool.false_eq_true, if_false]
      rw [ih, Doc.find_removeAttribute_self]
      cases h : d.find e <;> simp [h]

theorem getAttr?_foldl_condRemove (M : List (String × String)) (cur : List (String × String)) :
    ∀ (acc : List (String × String)) (k : String),
      getAttr? (cur.foldl (fun a kv => if jsTruthyAt M kv.1 then a else removeAttr a kv.1) acc) k =
        if k ∈ (cur.filter (fun kv => !jsTruthyAt M kv.1)).map Prod.fst then none
        else getAttr? acc k := by
  induction cur with
  | nil => intro acc k; simp
  | cons kv t ih =>
    intro acc k
    simp only [List.foldl_cons, List.filter_cons]
    by_cases hc : jsTruthyAt M kv.1 = true
    · have hb : (!jsTruthyAt M kv.1) = false := by simp [hc]
      rw [if_pos hc, hb]
      simp only [Bool.false_eq_true, if_false]
      exact ih acc k
    · have hb : (!jsTruthyAt M kv.1) = true := by simp [Bool.not_eq_true] at hc; simp [hc]
      rw [if_neg hc, hb, ih]
      simp only [if_true, List.map_cons, List.mem_cons]
      by_cases hmem : k ∈ (t.filter (fun kv => !jsTruthyAt M kv.1)).map Prod.fst
      · simp [hmem]
      · by_cases hkk : k = kv.1
        · subst hkk
          simp [hmem, getAttr?_removeAttr_self]
        · have : ¬(k = kv.1 ∨ k ∈ (t.filter (fun kv => !jsTruthyAt M kv.1)).map Prod.fst) := by
            push_neg
            exact ⟨hkk, hmem⟩
          rw [if_neg this, if_neg hmem]
          exact getAttr?_removeAttr_ne _ _ _ hkk

/-! ### Case folding lemmas -/

theorem charToNatOfNat (n : Nat) (h : n.isValidChar) : (Char.ofNat n).toNat = n := by
  simp only [Char.ofNat, h, dite_true]
  rfl

theorem charOfNatToNat (c : Char) : Char.ofNat c.toNat = c := by
  have h : c.toNat.isValidChar := c.valid
  simp only [Char.ofNat, h, dite_true, Char.ofNatAux]
  cases c with
  | mk v hv =>
    cases v with
    | mk bv => rfl

theorem charToLowerDef (c : Char) :
    c.toLower = if c.toNat ≥ 65 ∧ c.toNat ≤ 90 then Char.ofNat (c.toNat + 32) else c := rfl

theorem charToUpperDef (c : Char) :
    c.toUpper = if c.toNat ≥ 97 ∧ c.toNat ≤ 122 then Char.ofNat (c.toNat - 32) else c := rfl

theorem charLowerUpperLower (c : Char) : ((c.toLower).toUpper).toLower = c.toLower := by
  have hval : c.toNat.isValidChar := c.valid
  by_cases h1 : c.toNat ≥ 65 ∧ c.toNat ≤ 90
  · have hv2 : (c.toNat + 32).isValidChar := by
      unfold Nat.isValidChar at *
      left
      omega
    have e1 : c.toLower = Char.ofNat (c.toNat + 32) := by rw [charToLowerDef, if_pos h1]
    have t1 : (Char.ofNat (c.toNat + 32)).toNat = c.toNat + 32 := charToNatOfNat _ hv2
    have e2 : (Char.ofNat (c.toNat + 32)).toUpper = Char.ofNat c.toNat := by
      rw [charToUpperDef, t1, if_pos (by omega : c.toNat + 32 ≥ 97 ∧ c.toNat + 32 ≤ 122)]
      congr 1
    rw [e1, e2, charOfNatToNat]
    exact e1
  · have e1 : c.toLower = c := by rw [charToLowerDef, if_neg h1]
    rw [e1]
    by_cases h2 : c.toNat ≥ 97 ∧ c.toNat ≤ 122
    · have hv2 : (c.toNat - 32).isValidChar := by
        unfold Nat.isValidChar at *
        left
        omega
      have e2 : c.toUpper = Char.ofNat (c.toNat - 32) := by rw [charToUpperDef, if_pos h2]
      have t2 : (Char.ofNat (c.toNat - 32)).toNat = c.toNat - 32 := charToNatOfNat _ hv2
      rw [e2, charToLowerDef, t2, if_pos (by omega : c.toNat - 32 ≥ 65 ∧ c.toNat - 32 ≤ 90)]
      rw [show c.toNat - 32 + 32 = c.toNat by omega, charOfNatToNat]
    · have e2 : c.toUpper = c := by rw [charToUpperDef, if_neg h2]
      rw [e2, e1]

theorem toLowerCase_toUpperCase_toLowerCase (s : String) :
    toLowerCase (toUpperCase (toLowerCase s)) = toLowerCase s := by
  unfold toLowerCase toUpperCase
  simp only [List.map_map]
  congr 1
  apply List.map_congr_left
  intro c _
  exact charLowerUpperLower c

theorem appendChildren_nil (tagId : Nat) (d : Doc) (h : TagLegacyState) :
    TagLegacy.appendChildren tagId [] d h = .ok d h () := rfl

theorem appendChildren_cons_str (tagId : Nat) (s : String) (rest : List ChildVal)
    (d : Doc) (h : TagLegacyState) :
    TagLegacy.appendChildren tagId (.str s :: rest) d h =
      match (d.createTextNode s).1.appendChild tagId (d.createTextNode s).2 with
      | .error e => .thrown (d.createTextNode s).1 h e
      | .ok d2 => TagLegacy.appendChildren tagId rest d2 h := rfl

theorem appendChildren_cons_node (tagId n : Nat) (rest : List ChildVal)
    (d : Doc) (h : TagLegacyState) :
    TagLegacy.appendChildren tagId (.node n :: rest) d h =
      match d.appendChild tagId n with
      | .error e => .thrown d h e
      | .ok d2 => TagLegacy.appendChildren tagId rest d2 h := rfl

theorem TagLegacy.appendChildren_spec (cs : List ChildVal) :
    ∀ (d : Doc) (h : TagLegacyState) (tagId : Nat) (nd : Node),
      d.idsOk →
      d.find tagId = some nd →
      (∀ c ∈ childNodeRefs cs, (d.find c).isSome ∧ d.parentOf c = none ∧ c ≠ tagId) →
      (childNodeRefs cs).Nodup →
      ∃ d₂,
        TagLegacy.appendChildren tagId cs d h = .ok d₂ h () ∧
        d₂.nextId = d.nextId + numStrs cs ∧
        d₂.body = d.body ∧
        d₂.idsOk ∧
        d₂.find tagId = some { nd with children := nd.children ++ expectedIds cs d.nextId } ∧
        (∀ i s, (i, s) ∈ textsOf cs d.nextId →
          d₂.find i = some { Node.mkText s with parent := some tagId }) ∧
        (∀ c ∈ childNodeRefs cs,
          d₂.find c = (d.find c).map (fun m => { m with parent := some tagId })) ∧
        (∀ j, j ≠ tagId → j ∉ childNodeRefs cs → j < d.nextId → d₂.find j = d.find j) := by
  induction cs with
  | nil =>
    intro d h tagId nd hids hfind _ _
    refine ⟨d, rfl, by simp [numStrs], rfl, hids, ?_, ?_, ?_, ?_⟩
    · simpa [expectedIds] using hfind
    · intro i s hm
      simp [textsOf] at hm
    · intro c hc
      simp [childNodeRefs] at hc
    · intro j _ _ _
      rfl
  | cons cv rest ih =>
    intro d h tagId nd hids hfind hrefs hnodup
    have htagLt : tagId < d.nextId := Doc.find_lt_of_idsOk hids hfind
    cases cv with
    | str s =>
      set t := d.nextId with ht
      set d₁ := (d.createTextNode s).1 with hd₁
      have htne : t ≠ tagId := by omega
      have hfind₁t : d₁.find t = some (Node.mkText s) := d.find_createTextNode_self s hids
      have hfind₁tag : d₁.find tagId = d.find tagId :=
        d.find_createTextNode_ne s tagId (by omega)
      have hids₁ : d₁.idsOk := d.idsOk_createTextNode s hids
      have hpar₁ : d₁.parentOf t = none := by
        unfold Doc.parentOf
        rw [hfind₁t]
        rfl
      have happend : d₁.appendChild tagId t = .ok (d₁.attach tagId t) :=
        Doc.appendChild_detached d₁ tagId t htne hpar₁
      set d₂' := d₁.attach tagId t with hd₂'
      have hfind₂tag : d₂'.find tagId = some { nd with children := nd.children ++ [t] } := by
        rw [hd₂', Doc.find_attach_parent _ _ _ (fun hh => htne hh.symm), hfind₁tag, hfind]
        rfl
      have hfind₂t : d₂'.find t = some { Node.mkText s with parent := some tagId } := by
        rw [hd₂', Doc.find_attach_child _ _ _ (fun hh => htne hh.symm), hfind₁t]
        rfl
      have hframe₂ : ∀ j, j ≠ tagId → j ≠ t → d₂'.find j = d.find j := by
        intro j hj1 hj2
        rw [hd₂', Doc.find_attach_other _ _ _ _ hj1 hj2]
        exact d.find_createTextNode_ne s j hj2
      have hids₂' : d₂'.idsOk := d₁.idsOk_attach tagId t hids₁
      have hnext₂' : d₂'.nextId = d.nextId + 1 := rfl
      have hbody₂' : d₂'.body = d.body := rfl
      have hrefs₂ : ∀ c ∈ childNodeRefs rest, (d₂'.find c).isSome ∧ d₂'.parentOf c = none ∧ c ≠ tagId := by
        intro c hc
        have hcd := hrefs c hc
        have hclt : c < d.nextId := by
          rcases Option.isSome_iff_exists.1 hcd.1 with ⟨mc, hmc⟩
          exact Doc.find_lt_of_idsOk hids hmc
        have heq : d₂'.find c = d.find c := hframe₂ c hcd.2.2 (by omega)
        refine ⟨by rw [heq]; exact hcd.1, ?_, hcd.2.2⟩
        unfold Doc.parentOf at *
        rw [heq]
        exact hcd.2.1
      rcases ih d₂' h tagId { nd with children := nd.children ++ [t] } hids₂' hfind₂tag hrefs₂ hnodup with
        ⟨d₂, heq, hnext, hbody, hids₂, hfindTag, htexts, hrefs', hframe⟩
      refine ⟨d₂, ?_, ?_, ?_, hids₂, ?_, ?_, ?_, ?_⟩
      · rw [appendChildren_cons_str]
        have hsnd : (d.createTextNode s).2 = t := rfl
        rw [hsnd, ← hd₁, happend]
        exact heq
      · rw [hnext, hnext₂', show numStrs (.str s :: rest) = numStrs rest + 1 from rfl]
        omega
      · rw [hbody, hbody₂']
      · rw [hfindTag]
        simp [expectedIds, hnext₂']
      · intro i s' hm
        rw [show textsOf (.str s :: rest) d.nextId = (t, s) :: textsOf rest (t + 1) from rfl] at hm
        rcases List.mem_cons.1 hm with hm | hm
        · obtain ⟨rfl, rfl⟩ : i = t ∧ s' = s := by
            exact ⟨congrArg Prod.fst hm, congrArg Prod.snd hm⟩
          rw [hframe t (fun hh => htne hh) ?_ ?_]
          · exact hfind₂t
          · intro hc
            have hcd := hrefs t hc
            rcases Option.isSome_iff_exists.1 hcd.1 with ⟨mc, hmc⟩
            have := Doc.find_lt_of_idsOk hids hmc
            omega
          · rw [hnext₂']
            omega
        · have := htexts i s' (by rw [hnext₂']; exact hm)
          exact this
      · intro c hc
        have heqc : d₂.find c = (d₂'.find c).map (fun m => { m with parent := some tagId }) :=
          hrefs' c hc
        have hcd := hrefs c hc
        have hclt : c < d.nextId := by
          rcases Option.isSome_iff_exists.1 hcd.1 with ⟨mc, hmc⟩
          exact Doc.find_lt_of_idsOk hids hmc
        rw [heqc, hframe₂ c hcd.2.2 (by omega)]
      · intro j hj1 hj2 hj3
        rw [hframe j hj1 hj2 (by rw [hnext₂']; omega), hframe₂ j hj1 (by omega)]
    | node n =>
      have hrefsn := hrefs n (by simp [childNodeRefs])
      have hnlt : n < d.nextId := by
        rcases Option.isSome_iff_exists.1 hrefsn.1 with ⟨mn, hmn⟩
        exact Doc.find_lt_of_idsOk hids hmn
      have happend : d.appendChild tagId n = .ok (d.attach tagId n) :=
        Doc.appendChild_detached d tagId n hrefsn.2.2 hrefsn.2.1
      set d₂' := d.attach tagId n with hd₂'
      have htagne : tagId ≠ n := fun hh => hrefsn.2.2 hh.symm
      have hfind₂tag : d₂'.find tagId = some { nd with children := nd.children ++ [n] } := by
        rw [hd₂', Doc.find_attach_parent _ _ _ htagne, hfind]
        rfl
      have hfind₂n : d₂'.find n = (d.find n).map (fun m => { m with parent := some tagId }) := by
        rw [hd₂', Doc.find_attach_child _ _ _ htagne]
      have hframe₂ : ∀ j, j ≠ tagId → j ≠ n → d₂'.find j = d.find j := by
        intro j hj1 hj2
        rw [hd₂', Doc.find_attach_other _ _ _ _ hj1 hj2]
      have hids₂' : d₂'.idsOk := d.idsOk_attach tagId n hids
      have hnodup' : (childNodeRefs rest).Nodup ∧ n ∉ childNodeRefs rest := by
        rw [show childNodeRefs (.node n :: rest) = n :: childNodeRefs rest from rfl] at hnodup
        exact ⟨(List.nodup_cons.1 hnodup).2, (List.nodup_cons.1 hnodup).1⟩
      have hrefs₂ : ∀ c ∈ childNodeRefs rest, (d₂'.find c).isSome ∧ d₂'.parentOf c = none ∧ c ≠ tagId := by
        intro c hc
        have hcd := hrefs c (by rw [show childNodeRefs (.node n :: rest) = n :: childNodeRefs rest from rfl]; exact List.mem_cons_of_mem n hc)
        have hcn : c ≠ n := fun hh => hnodup'.2 (hh ▸ hc)
        have heqc : d₂'.find c = d.find c := hframe₂ c hcd.2.2 hcn
        refine ⟨by rw [heqc]; exact hcd.1, ?_, hcd.2.2⟩
        unfold Doc.parentOf at *
        rw [heqc]
        exact hcd.2.1
      rcases ih d₂' h tagId { nd with children := nd.children ++ [n] } hids₂' hfind₂tag hrefs₂ hnodup'.1 with
        ⟨d₂, heq, hnext, hbody, hids₂, hfindTag, htexts, hrefs', hframe⟩
      refine ⟨d₂, ?_, ?_, ?_, hids₂, ?_, ?_, ?_, ?_⟩
      · rw [appendChildren_cons_node, happend]
        exact heq
      · rw [hnext]
        rfl
      · rw [hbody]
        rfl
      · rw [hfindTag]
        simp [expectedIds]
        rfl
      · intro i s' hm
        exact htexts i s' hm
      · intro c hc
        rw [show childNodeRefs (.node n :: rest) = n :: childNodeRefs rest from rfl] at hc
        rcases List.mem_cons.1 hc with hc | hc
        · subst hc
          rw [hframe c htagne.symm ?_ ?_]
          · exact hfind₂n
          · exact fun hcon => hnodup'.2 hcon
          · exact hnlt
        · rw [hrefs' c hc]
          have hcd := hrefs c (by rw [show childNodeRefs (.node n :: rest) = n :: childNodeRefs rest from rfl]; exact List.mem_cons_of_mem n hc)
          have hcn : c ≠ n := fun hh => hnodup'.2 (hh ▸ hc)
          rw [hframe₂ c hcd.2.2 hcn]
      · intro j hj1 hj2 hj3
        rw [show childNodeRefs (.node n :: rest) = n :: childNodeRefs rest from rfl] at hj2
        have hj2' : j ∉ childNodeRefs rest := fun hcon => hj2 (List.mem_cons_of_mem n hcon)
        have hjn : j ≠ n := fun hcon => hj2 (hcon ▸ List.mem_cons_self n _)
        rw [hframe j hj1 hj2' hj3, hframe₂ j hj1 hjn]

theorem lookupNode_isSome_of_mem (l : List (Nat × Node)) (i : Nat) (h : i ∈ l.map Prod.fst) :
    (lookupNode l i).isSome := by
  induction l with
  | nil => simp at h
  | cons p t ih =>
    rw [lookupNode_cons]
    by_cases hp : p.1 = i
    · simp [hp]
    · simp only [List.map_cons, List.mem_cons] at h
      rcases h with h | h
      · exact absurd h.symm hp
      · simp [hp, ih h]

theorem Doc.parentOf_of_find {d : Doc} {i : Nat} {n : Node} (h : d.find i = some n) :
    d.parentOf i = n.parent := by
  unfold Doc.parentOf
  rw [h]
  rfl

/-- Claim C2 theorem.  Constructing a `TagLegacy` handle with a tag type, an
attribute mapping, an optional parent and a child list creates a fresh node of
that type carrying exactly the given attributes, appends it as the last child
of the given parent (of `document.body` when no parent is given), and appends
the children in order: each string child becomes a fresh text node, each
node-reference child is attached directly.  The hypotheses state that the
document is well formed and the node-reference children are distinct detached
nodes, none of which is the target parent or has the target parent inside its
inclusive subtree (`hsub`) — so none is a host-including inclusive ancestor
of the target and the platform's pre-insert validation cannot fire on any
append the construction performs. -/
theorem claimC2_construct_spec
    (d : Doc) (ty : String) (objId : Nat) (A : List (String × String))
    (parentArg : Option Nat) (cs : List ChildVal)
    (hids : d.idsOk)
    (hpid : (parentArg.getD d.body) ∈ d.ids)
    (hA : (A.map Prod.fst).Nodup)
    (hrefs : ∀ c ∈ childNodeRefs cs, (d.find c).isSome ∧ d.parentOf c = none)
    (hnodup : (childNodeRefs cs).Nodup)
    (hpidrefs : (parentArg.getD d.body) ∉ childNodeRefs cs)
    (hsub : ∀ c ∈ childNodeRefs cs,
      d.inSubtree d.nodes.length c (parentArg.getD d.body) = false) :
    ∃ d₂ h₂,
      TagLegacy.construct ty (some ⟨objId, A⟩) parentArg (some cs) d = .ok d₂ h₂ () ∧
      h₂._tag = some d.nextId ∧
      d₂.find d.nextId = some (Node.mk .element (toLowerCase ty) "" A (some (parentArg.getD d.body)) (expectedIds cs (d.nextId + 1))) ∧
      d₂.find (parentArg.getD d.body) =
        (d.find (parentArg.getD d.body)).map
          (fun m => { m with children := m.children ++ [d.nextId] }) ∧
      (∀ i s, (i, s) ∈ textsOf cs (d.nextId + 1) →
        d₂.find i = some { Node.mkText s with parent := some d.nextId }) ∧
      (∀ c ∈ childNodeRefs cs,
        d₂.find c = (d.find c).map (fun m => { m with parent := some d.nextId })) := by
  set tagId := d.nextId with htag
  obtain ⟨pid, hpidDef⟩ : ∃ pid, parentArg.getD d.body = pid := ⟨_, rfl⟩
  rw [hpidDef] at hpid hpidrefs hsub ⊢
  set dc := (d.createElement ty).1 with hdc
  have hfindc : dc.find tagId = some (Node.mkElement ty) := d.find_createElement_self ty hids
  have hidsc : dc.idsOk := d.idsOk_createElement ty hids
  set dA := A.foldl (fun (d : Doc) (kv : String × String) => d.setAttribute tagId kv.1 kv.2) dc with hdA
  have hfindA : dA.find tagId = some { Node.mkElement ty with attrs := A } := by
    rw [hdA, Doc.find_foldl_setAttribute_self, hfindc]
    have hfold : List.foldl (fun a kv => setAttr a kv.1 kv.2) ([] : List (String × String)) A = A :=
      foldl_setAttr_nil A hA
    simp [Node.mkElement, hfold]
  have hframeA : ∀ j, j ≠ tagId → dA.find j = d.find j := by
    intro j hj
    rw [hdA, Doc.find_foldl_setAttribute_ne _ _ _ _ hj, hdc, d.find_createElement_ne ty j hj]
  have hidsA : dA.idsOk := Doc.idsOk_foldl_setAttribute A dc tagId hidsc
  have hbodyA : dA.body = d.body := by
    rw [hdA, Doc.body_foldl_setAttribute]
    rw [hdc]
    rfl
  have hnextA : dA.nextId = d.nextId + 1 := by
    rw [hdA, Doc.nextId_foldl_setAttribute]
    rw [hdc]
    rfl
  have hpidlt : pid < d.nextId := by
    rcases List.mem_map.1 hpid with ⟨q, hq, hq1⟩
    have := hids q hq
    omega
  have hpidne : pid ≠ tagId := by omega
  have hfindApid : dA.find pid = d.find pid := hframeA pid hpidne
  have happend : dA.appendChild pid tagId = .ok (dA.attach pid tagId) := by
    apply Doc.appendChild_detached
    · omega
    · rw [Doc.parentOf_of_find hfindA]
      rfl
  set dB := dA.attach pid tagId with hdB
  have hfindBtag : dB.find tagId = some (Node.mk .element (toLowerCase ty) "" A (some pid) []) := by
    rw [hdB, Doc.find_attach_child _ _ _ hpidne, hfindA]
    rfl
  have hfindBpid : dB.find pid =
      (d.find pid).map (fun m => { m with children := m.children ++ [tagId] }) := by
    rw [hdB, Doc.find_attach_parent _ _ _ hpidne, hfindApid]
  have hframeB : ∀ j, j ≠ tagId → j ≠ pid → dB.find j = d.find j := by
    intro j hj1 hj2
    rw [hdB, Doc.find_attach_other _ _ _ _ hj2 hj1]
    exact hframeA j hj1
  have hidsB : dB.idsOk := dA.idsOk_attach pid tagId hidsA
  have hnextB : dB.nextId = d.nextId + 1 := by
    rw [hdB, Doc.attach_nextId]
    exact hnextA
  have hrefsB : ∀ c ∈ childNodeRefs cs, (dB.find c).isSome ∧ dB.parentOf c = none ∧ c ≠ tagId := by
    intro c hc
    have hcd := hrefs c hc
    have hclt : c < d.nextId := by
      rcases Option.isSome_iff_exists.1 hcd.1 with ⟨mc, hmc⟩
      exact Doc.find_lt_of_idsOk hids hmc
    have hcne : c ≠ tagId := by omega
    have hcpid : c ≠ pid := fun hh => hpidrefs (hh ▸ hc)
    have heqc : dB.find c = d.find c := hframeB c hcne hcpid
    refine ⟨by rw [heqc]; exact hcd.1, ?_, hcne⟩
    unfold Doc.parentOf at *
    rw [heqc]
    exact hcd.2
  rcases TagLegacy.appendChildren_spec cs dB
      { _type := some ty, _attributes := some ⟨objId, A⟩, _parent := some pid,
        _children := some cs, _relatives := none, _tag := some tagId }
      tagId _ hidsB hfindBtag hrefsB hnodup with
    ⟨d₂, heq, hnext, hbody, hids₂, hfindTag, htexts, hrefs', hframe⟩
  refine ⟨d₂, (⟨some ty, some ⟨objId, A⟩, some pid, some cs, none, some tagId⟩ : TagLegacyState), ?_, rfl, ?_, ?_, ?_, ?_⟩
  · simp only [TagLegacy.construct]
    rw [show (d.createElement ty).2 = tagId from rfl, ← hdc, ← hdA]
    cases parentArg with
    | some p =>
      have hp : p = pid := hpidDef
      subst hp
      rw [happend]
      exact heq
    | none =>
      have hb : d.body = pid := hpidDef
      rw [hbodyA, hb, happend]
      exact heq
  · rw [hfindTag]
    simp only [List.nil_append]
    rw [hnextB]
  · rw [hframe pid hpidne hpidrefs (by omega)]
    exact hfindBpid
  · intro i s hm
    apply htexts
    rw [hnextB]
    exact hm
  · intro c hc
    have hcd := hrefs c hc
    have hclt : c < d.nextId := by
      rcases Option.isSome_iff_exists.1 hcd.1 with ⟨mc, hmc⟩
      exact Doc.find_lt_of_idsOk hids hmc
    have hcne : c ≠ tagId := by omega
    have hcpid : c ≠ pid := fun hh => hpidrefs (hh ▸ hc)
    rw [hrefs' c hc, hframeB c hcne hcpid]

/-- Claim C7 amended theorem.  Constructing a `TagLegacy` handle with tag type
`T` and reading `type` back returns the ASCII lowercase of `T` (the HTML
platform folds the tag name to lowercase at creation and the getter lowercases
the uppercase `tagName`); the round trip returns `T` itself exactly when `T`
is already lowercase. -/
theorem claimC7_amended (d : Doc) (T : String)
    (hids : d.idsOk) (hbody : d.body ∈ d.ids) :
    ∃ d₂ h₂ h₃,
      TagLegacy.construct T none none none d = .ok d₂ h₂ () ∧
      TagLegacy.getType h₂ d₂ = .ok d₂ h₃ (toLowerCase T) ∧
      (toLowerCase T = T → TagLegacy.getType h₂ d₂ = .ok d₂ h₃ T) := by
  set tagId := d.nextId with htag
  set dc := (d.createElement T).1 with hdc
  have hfindc : dc.find tagId = some (Node.mkElement T) := d.find_createElement_self T hids
  have hblt : d.body < d.nextId := by
    rcases List.mem_map.1 hbody with ⟨q, hq, hq1⟩
    have := hids q hq
    omega
  have happend : dc.appendChild d.body tagId = .ok (dc.attach d.body tagId) := by
    apply Doc.appendChild_detached
    · omega
    · rw [Doc.parentOf_of_find hfindc]
      rfl
  set dB := dc.attach d.body tagId with hdB
  have hfindB : dB.find tagId = some (Node.mk .element (toLowerCase T) "" [] (some d.body) []) := by
    rw [hdB, Doc.find_attach_child _ _ _ (by omega), hfindc]
    rfl
  have hconstruct : TagLegacy.construct T none none none d =
      .ok dB (⟨some T, none, some d.body, none, none, some tagId⟩ : TagLegacyState) () := by
    simp only [TagLegacy.construct]
    rw [show (d.createElement T).2 = tagId from rfl, ← hdc]
    rw [show dc.body = d.body from rfl]
    rw [happend]
  have hget : TagLegacy.getType (⟨some T, none, some d.body, none, none, some tagId⟩ : TagLegacyState) dB =
      .ok dB (⟨some (toLowerCase T), none, some d.body, none, none, some tagId⟩ : TagLegacyState)
        (toLowerCase T) := by
    simp only [TagLegacy.getType]
    rw [hfindB]
    show JSResult.ok dB (⟨some (toLowerCase (Node.mk NodeKind.element (toLowerCase T) "" [] (some d.body) []).tagName), none, some d.body, none, none, some tagId⟩ : TagLegacyState) (toLowerCase (Node.mk NodeKind.element (toLowerCase T) "" [] (some d.body) []).tagName) = _
    rw [show (Node.mk NodeKind.element (toLowerCase T) "" [] (some d.body) []).tagName = toUpperCase (toLowerCase T) from rfl]
    rw [toLowerCase_toUpperCase_toLowerCase]
  refine ⟨dB, _, _, hconstruct, hget, ?_⟩
  intro he
  rw [hget]
  rw [he]

theorem TagLegacy.setParent_node_ok (h : TagLegacyState) (nid t : Nat) (d d₂ : Doc)
    (hne : some nid ≠ h._parent) (ht : h._tag = some t)
    (happ : d.appendChild nid t = Except.ok d₂) :
    TagLegacy.setParent h (.node nid) d = .ok d₂ { h with _parent := some nid } () := by
  simp only [TagLegacy.setParent]
  rw [if_pos hne]
  simp only [ht, happ]

theorem Doc.parentOf_detach_self (d : Doc) (c : Nat) : (d.detach c).parentOf c = none := by
  unfold Doc.detach
  cases hp : d.parentOf c with
  | none => exact hp
  | some p =>
    show Doc.parentOf _ c = none
    unfold Doc.parentOf Doc.find
    simp only
    rw [lookupNode_updNodes_self]
    cases lookupNode (updNodes d.nodes p (fun n => { n with children := n.children.filter (fun x => x != c) })) c <;> rfl

/-- Claim C4 theorem.  Assigning a (freshly allocated, hence
reference-distinct) attribute mapping through the `TagLegacy` `attributes`
setter writes every entry of the mapping onto the live node, removes nothing —
every attribute present before is still present — and a subsequent read of
`attributes` returns a mapping carrying every key of the assignment with its
value (the node's full attribute list). -/
theorem claimC4_setAttributes_additive
    (d : Doc) (h : TagLegacyState) (a : AttrObj) (t : Nat) (n : Node)
    (ht : h._tag = some t)
    (hfind : d.find t = some n)
    (hn : (n.attrs.map Prod.fst).Nodup)
    (hA : (a.entries.map Prod.fst).Nodup)
    (hfresh : (match h._attributes with | some b => a.objId != b.objId | none => true) = true) :
    ∃ d₂,
      TagLegacy.setAttributes h a d = .ok d₂ { h with _attributes := some a } () ∧
      ∃ n₂, d₂.find t = some n₂ ∧
        (∀ k v, (k, v) ∈ a.entries → getAttr? n₂.attrs k = some v) ∧
        (∀ k, (getAttr? n.attrs k).isSome → (getAttr? n₂.attrs k).isSome) ∧
        (∀ fid, TagLegacy.getAttributes { h with _attributes := some a } fid d₂ =
          .ok d₂ { h with _attributes := some ⟨fid, n₂.attrs⟩ } ⟨fid, n₂.attrs⟩) := by
  set d₂ := a.entries.foldl (fun (d : Doc) (kv : String × String) => d.setAttribute t kv.1 kv.2) d with hd₂
  set n₂ : Node := { n with attrs := a.entries.foldl (fun l kv => setAttr l kv.1 kv.2) n.attrs } with hn₂
  have hfind₂ : d₂.find t = some n₂ := by
    rw [hd₂, Doc.find_foldl_setAttribute_self, hfind]
    rfl
  have hsetter : TagLegacy.setAttributes h a d = .ok d₂ { h with _attributes := some a } () := by
    simp only [TagLegacy.setAttributes]
    rw [hfresh]
    simp only [if_true]
    rw [show ({ h with _attributes := some a } : TagLegacyState)._tag = h._tag from rfl, ht]
  have hnodup₂ : (n₂.attrs.map Prod.fst).Nodup := by
    rw [hn₂]
    exact nodupKeys_foldl_setAttr a.entries n.attrs hn
  refine ⟨d₂, hsetter, n₂, hfind₂, ?_, ?_, ?_⟩
  · intro k v hm
    rw [hn₂]
    exact getAttr?_foldl_setAttr_mem a.entries n.attrs k v hA hm
  · intro k hk
    rw [hn₂]
    by_cases hmem : k ∈ a.entries.map Prod.fst
    · rcases List.mem_map.1 hmem with ⟨kv, hkv, rfl⟩
      rw [getAttr?_foldl_setAttr_mem a.entries n.attrs kv.1 kv.2 hA hkv]
      rfl
    · rw [getAttr?_foldl_setAttr_not_mem a.entries n.attrs k hmem]
      exact hk
  · intro fid
    simp only [TagLegacy.getAttributes]
    rw [show ({ h with _attributes := some a } : TagLegacyState)._tag = h._tag from rfl]
    simp only [ht, hfind₂]
    rw [foldl_setAttr_getD n₂.attrs n₂.attrs []
      (fun kv hkv => getAttr?_of_mem_nodup n₂.attrs kv.1 kv.2 hnodup₂ hkv)]
    rw [foldl_setAttr_nil n₂.attrs hnodup₂]

/-- Claim C5 theorem.  A self-parenting attempt never reparents the node and
leaves the document tree untouched, in both class variants: the part_000 `Tag`
setter falls through its guards to the debug-only warning (both for the handle
object itself and for the handle's own element), and the `TagLegacy` setter —
which has no guard — throws (`TypeError` for the handle object, which has no
`append` method; the platform's `HierarchyRequestError` for the handle's own
node, raised by pre-insert validation before any mutation), in every case
returning the document unchanged. -/
theorem claimC5_self_parent_rejected
    (d : Doc) (hc : TagCState) (e : Nat) (h : TagLegacyState) (t : Nat)
    (he : hc.element = some e)
    (ht : h._tag = some t)
    (hp : h._parent ≠ some t) :
    TagC.setParent hc .selfObj d = .ok d hc () ∧
    TagC.setParent hc (.elem e) d = .ok d hc () ∧
    TagLegacy.setParent h .selfObj d = .thrown d { h with _parent := none } .typeError ∧
    TagLegacy.setParent h (.node t) d = .thrown d { h with _parent := some t } .hierarchyRequestError := by
  refine ⟨?_, ?_, rfl, ?_⟩
  · simp only [TagC.setParent, TagC.fix]
    rw [he]
  · simp [TagC.setParent, TagC.fix, he]
  · simp only [TagLegacy.setParent]
    rw [if_pos (fun hcon => hp hcon.symm)]
    rw [show ({ h with _parent := some t } : TagLegacyState)._tag = h._tag from rfl, ht]
    simp [Doc.appendChild]

/-- Claim C9 theorem.  The part_000 `Tag` constructor given a string never
adopts the document element with that ID: the guard tests `typeof id` where
`id` is undeclared (always "undefined"), so for every document and every
string the constructor returns a freshly created div — an id distinct from
every node already in the document. -/
theorem claimC9_string_never_adopts (d : Doc) (s : String) (hids : d.idsOk) :
    ∃ d₂,
      TagC.construct (.str s) d = (d₂, ⟨some d.nextId, none, none, none⟩) ∧
      d₂.find d.nextId = some (Node.mkElement "div") ∧
      ∀ i ∈ d.ids, i ≠ d.nextId := by
  refine ⟨(d.createElement "div").1, ?_, d.find_createElement_self "div" hids, ?_⟩
  · simp only [TagC.construct]
    rw [if_neg (by decide : ¬ (typeofUndeclaredId == "string") = true)]
    rfl
  · intro i hi
    rcases List.mem_map.1 hi with ⟨q, hq, hq1⟩
    have := hids q hq
    omega

/-- Claim C10 theorem.  Reading `parent` on a legacy handle whose node has no
platform parent is an effectful read: the getter invokes the `parent` setter
with `document.body`, appending the node under the body, and returns the body
reference; when the node already has a parent the read returns it and changes
nothing. -/
theorem claimC10_parent_getter_effect
    (d : Doc) (h : TagLegacyState) (t : Nat) (n : Node)
    (ht : h._tag = some t)
    (hfind : d.find t = some n) :
    (n.parent = none → t ≠ d.body →
      TagLegacy.getParent h d =
        .ok (d.attach d.body t) { h with _parent := some d.body } (some d.body) ∧
      (d.attach d.body t).find d.body =
        (d.find d.body).map (fun m => { m with children := m.children ++ [t] }) ∧
      (d.attach d.body t).find t = some { n with parent := some d.body }) ∧
    (∀ p, n.parent = some p → TagLegacy.getParent h d = .ok d { h with _parent := some p } (some p)) := by
  constructor
  · intro hpar hne
    have hbne : d.body ≠ t := fun hh => hne hh.symm
    have happ : d.appendChild d.body t = Except.ok (d.attach d.body t) := by
      have h1 : d.appendChild d.body t = Except.ok ((d.detach t).attach d.body t) := by
        unfold Doc.appendChild
        rw [if_neg (by simp [hne])]
      rw [h1, Doc.detach_of_no_parent d t (by rw [Doc.parentOf_of_find hfind, hpar])]
    have hset := TagLegacy.setParent_node_ok
      (⟨h._type, h._attributes, none, h._children, h._relatives, some t⟩ : TagLegacyState)
      d.body t d (d.attach d.body t) (by simp) rfl happ
    refine ⟨?_, Doc.find_attach_parent d d.body t hbne, ?_⟩
    · simp only [TagLegacy.getParent, ht, hfind, hpar]
      rw [hset]
    · rw [Doc.find_attach_child d d.body t hbne, hfind]
      rfl
  · intro p hpar
    simp only [TagLegacy.getParent, ht, hfind, hpar]

/-- Claim C6 amended theorem.  `TagLegacy.remove` nulls the ownership
reference and detaches the node — that much of the claim holds — but a
subsequent operation on the legacy handle (here, reading `type`) throws a
`TypeError` instead of recreating a placeholder: `TagLegacy` has no `fix`.
The lazy placeholder recreation, preserving the last stored name and
defaulting to div, exists only in the part_000 `Tag` variant's `fix()`, which
its mutating accessors call. -/
theorem claimC6_amended
    (d : Doc) (h : TagLegacyState) (t : Nat) (hc : TagCState)
    (ht : h._tag = some t) (hel : hc.element = none) (hids : d.idsOk) :
    TagLegacy.remove h d = .ok (d.detach t) { h with _tag := none } () ∧
    (d.detach t).parentOf t = none ∧
    (∀ d₃, TagLegacy.getType { h with _tag := none } d₃ =
      .thrown d₃ { h with _tag := none } .typeError) ∧
    TagC.fix hc d =
      ((d.createElement (jsOrStr hc.storedName "div")).1, { hc with element := some d.nextId }) ∧
    (TagC.fix hc d).1.find d.nextId = some (Node.mkElement (jsOrStr hc.storedName "div")) ∧
    (TagC.fix hc d).1.parentOf d.nextId = none := by
  have hfix : TagC.fix hc d =
      ((d.createElement (jsOrStr hc.storedName "div")).1, { hc with element := some d.nextId }) := by
    simp only [TagC.fix, hel]
    rfl
  refine ⟨?_, Doc.parentOf_detach_self d t, ?_, hfix, ?_, ?_⟩
  · simp only [TagLegacy.remove, ht]
  · intro d₃
    rfl
  · rw [hfix]
    exact d.find_createElement_self (jsOrStr hc.storedName "div") hids
  · rw [hfix]
    rw [Doc.parentOf_of_find (d.find_createElement_self (jsOrStr hc.storedName "div") hids)]
    rfl

/-- Claim C8 amended theorem.  The part_000 `attributes` setter is a
destructive replacement: it removes every existing attribute whose key is
absent or falsy in the new mapping and then writes every entry of the
mapping — falsy-valued entries included, since the write loop is
unconditional.  Afterwards the element carries exactly the entries of the
mapping (not merely its truthy entries): looking any key up on the element
agrees with looking it up in the mapping. -/
theorem claimC8_amended
    (d : Doc) (hc : TagCState) (e : Nat) (n : Node) (M : List (String × String))
    (he : hc.element = some e)
    (hfind : d.find e = some n)
    (hn : (n.attrs.map Prod.fst).Nodup)
    (hM : (M.map Prod.fst).Nodup) :
    ∃ d₂,
      TagC.setAttributes hc (some M) d = .ok d₂ { hc with storedAttributes := some M } () ∧
      ∃ n₂, d₂.find e = some n₂ ∧
        ∀ k, getAttr? n₂.attrs k = getAttr? M k := by
  have hcur : TagC.getAttributes hc d = .ok d hc n.attrs := by
    simp only [TagC.getAttributes, he, hfind]
    rw [foldl_setAttr_nil n.attrs hn]
  set dR := n.attrs.foldl
    (fun (d : Doc) (kv : String × String) =>
      if jsTruthyAt M kv.1 then d else d.removeAttribute e kv.1) d with hdR
  set dW := M.foldl (fun (d : Doc) (kv : String × String) => d.setAttribute e kv.1 kv.2) dR with hdW
  have hfindR : dR.find e =
      some { n with attrs := n.attrs.foldl (fun a kv => if jsTruthyAt M kv.1 then a else removeAttr a kv.1) n.attrs } := by
    rw [hdR, Doc.find_foldl_condRemove_self, hfind]
    rfl
  have hfindW : dW.find e =
      some { n with attrs := M.foldl (fun a kv => setAttr a kv.1 kv.2) (n.attrs.foldl (fun a kv => if jsTruthyAt M kv.1 then a else removeAttr a kv.1) n.attrs) } := by
    rw [hdW, Doc.find_foldl_setAttribute_self, hfindR]
    rfl
  have hsetter : TagC.setAttributes hc (some M) d = .ok dW { hc with storedAttributes := some M } () := by
    simp only [TagC.setAttributes, TagC.fix, he]
    simp only [hcur, he]
  refine ⟨dW, hsetter, _, hfindW, ?_⟩
  intro k
  show getAttr? (M.foldl (fun a kv => setAttr a kv.1 kv.2) (n.attrs.foldl (fun a kv => if jsTruthyAt M kv.1 then a else removeAttr a kv.1) n.attrs)) k = getAttr? M k
  by_cases hmem : k ∈ M.map Prod.fst
  · rcases List.mem_map.1 hmem with ⟨kv, hkv, rfl⟩
    rw [getAttr?_foldl_setAttr_mem M _ kv.1 kv.2 hM hkv,
      getAttr?_of_mem_nodup M kv.1 kv.2 hM hkv]
  · rw [getAttr?_foldl_setAttr_not_mem M _ k hmem,
      getAttr?_foldl_condRemove M n.attrs n.attrs k,
      getAttr?_eq_none_of_not_mem M k hmem]
    by_cases hin : k ∈ n.attrs.map Prod.fst
    · rw [if_pos ?_]
      rcases List.mem_map.1 hin with ⟨kv, hkv, rfl⟩
      have hfalsy : jsTruthyAt M kv.1 = false := by
        unfold jsTruthyAt
        rw [getAttr?_eq_none_of_not_mem M kv.1 hmem]
      refine List.mem_map.2 ⟨kv, ?_, rfl⟩
      rw [List.mem_filter]
      exact ⟨hkv, by rw [hfalsy]; rfl⟩
    · rw [if_neg ?_]
      · exact getAttr?_eq_none_of_not_mem n.attrs k hin
      · intro hcon
        rcases List.mem_map.1 hcon with ⟨kv, hkv, rfl⟩
        exact hin (List.mem_map.2 ⟨kv, (List.mem_filter.1 hkv).1, rfl⟩)

/-- Claim C1 theorem (code bug, evaluated at the failing input).  On a parent
with element children div, p, div and the handle wrapping the middle p,
`toPosition("first")` does not reorder the children to p, div, div: the
`relatives` getter writes `relativeArray[i] = relatives[i]` by index, leaving
a hole at the handle's own position, the array iterator yields undefined at
the hole, and `fragment.appendChild(undefined)` throws a `TypeError` midway —
after the first two nodes were already moved into the fragment, so the live
parent is left with only the last div.  A numeric position fails the same
way. -/
theorem claimC1_code_bug_eval :
    (TagLegacy.toPosition c1state PosArg.first c1doc).thrownWith = some JSError.typeError ∧
    (TagLegacy.toPosition c1state PosArg.first c1doc).doc.childrenOf 0 = [3] ∧
    (TagLegacy.toPosition c1state PosArg.first c1doc).doc.parentOf 2 = none ∧
    (TagLegacy.toPosition c1state PosArg.first c1doc).doc.parentOf 1 = none ∧
    (TagLegacy.toPosition c1state (PosArg.idx 0) c1doc).thrownWith = some JSError.typeError ∧
    c1doc.childrenOf 0 = [1, 2, 3] := by
  decide

/-- Claim C3 theorem (code bug, evaluated at the failing input).  Assigning
`type = "div"` on a legacy handle wrapping a p element does not repoint the
handle at a new div: `new Tag(type, ...)` resolves to the `constructor(id,
debug)` class, which merely looks up `getElementById("div")` and creates
nothing (`nextId` is unchanged), the old node is removed from the tree, and
`newTag.tag` is undefined — so the handle's `_tag` ends up undefined and a
subsequent `type` read throws a `TypeError` instead of returning "div". -/
theorem claimC3_code_bug_eval :
    (TagLegacy.setType c3state "div" 7 c3doc).isOk = true ∧
    (TagLegacy.setType c3state "div" 7 c3doc).state._tag = none ∧
    (TagLegacy.setType c3state "div" 7 c3doc).doc.nextId = c3doc.nextId ∧
    (TagLegacy.setType c3state "div" 7 c3doc).doc.childrenOf 0 = [] ∧
    (TagLegacy.setType c3state "div" 7 c3doc).doc.parentOf 1 = none ∧
    (TagLegacy.getType (TagLegacy.setType c3state "div" 7 c3doc).state
      (TagLegacy.setType c3state "div" 7 c3doc).doc).thrownWith = some JSError.typeError := by
  decide

/-- Claim C6 counterexample.  The claim asserts that after removal any
subsequent operation on the handle lazily recreates a placeholder node rather
than failing; on the legacy handle — the only class with `remove` — reading
`type` right after `remove` throws a `TypeError`. -/
theorem claimC6_counterexample :
    (TagLegacy.remove c6state c6doc).isOk = true ∧
    (TagLegacy.remove c6state c6doc).state._tag = none ∧
    (TagLegacy.getType (TagLegacy.remove c6state c6doc).state
      (TagLegacy.remove c6state c6doc).doc).thrownWith = some JSError.typeError := by
  decide

/-- Claim C7 counterexample.  "DIV" is a valid tag-type string (`createElement`
accepts it and creates a div element), yet constructing with it and reading
`type` returns "div", not "DIV". -/
theorem claimC7_counterexample :
    (TagLegacy.construct "DIV" none none none c7doc).isOk = true ∧
    (TagLegacy.getType (TagLegacy.construct "DIV" none none none c7doc).state
      (TagLegacy.construct "DIV" none none none c7doc).doc).valueOr "" = "div" ∧
    ("div" : String) ≠ "DIV" := by
  decide

/-- Claim C8 counterexample.  Assigning the mapping a=1, b="" (b falsy), the
claim predicts the element carries exactly the truthy entries — a=1 only, b
absent.  The code's unconditional write loop re-adds b with the empty value,
so the element carries both entries. -/
theorem claimC8_counterexample :
    (TagC.setAttributes c8state (some [("a", "1"), ("b", "")]) c8doc).isOk = true ∧
    ((TagC.setAttributes c8state (some [("a", "1"), ("b", "")]) c8doc).doc.find 1).map Node.attrs =
      some [("a", "1"), ("b", "")] ∧
    truthyEntries [("a", "1"), ("b", "")] = [("a", "1")] ∧
    ¬ (((TagC.setAttributes c8state (some [("a", "1"), ("b", "")]) c8doc).doc.find 1).map Node.attrs =
      some (truthyEntries [("a", "1"), ("b", "")])) := by
  decide

theorem claimC2_witness :
    ∃ d₂ h₂, TagLegacy.construct "ul" (some ⟨5, [("id", "list1")]⟩) none
      (some [ChildVal.str "a", ChildVal.node 1, ChildVal.str "b"]) c2doc = .ok d₂ h₂ () := by
  obtain ⟨d₂, h₂, hok, -, -, -, -, -⟩ :=
    claimC2_construct_spec c2doc "ul" 5 [("id", "list1")] none
      [ChildVal.str "a", ChildVal.node 1, ChildVal.str "b"]
      (by decide) (by decide) (by decide) (by decide) (by decide) (by decide) (by decide)
  exact ⟨d₂, h₂, hok⟩

theorem claimC4_witness :
    ∃ d₂, TagLegacy.setAttributes c4state ⟨9, [("k", "v")]⟩ c4doc =
      .ok d₂ { c4state with _attributes := some ⟨9, [("k", "v")]⟩ } () := by
  obtain ⟨d₂, hok, -⟩ :=
    claimC4_setAttributes_additive c4doc c4state ⟨9, [("k", "v")]⟩ 1
      ({ Node.mkElement "div" with parent := some 0, attrs := [("old", "1")] })
      (by decide) (by decide) (by decide) (by decide) (by decide)
  exact ⟨d₂, hok⟩

theorem claimC5_witness :
    TagC.setParent c5hc .selfObj c5doc = .ok c5doc c5hc () ∧
    TagLegacy.setParent c5h (.node 1) c5doc =
      .thrown c5doc { c5h with _parent := some 1 } .hierarchyRequestError :=
  ⟨(claimC5_self_parent_rejected c5doc c5hc 1 c5h 1 (by decide) (by decide) (by decide)).1,
   (claimC5_self_parent_rejected c5doc c5hc 1 c5h 1 (by decide) (by decide) (by decide)).2.2.2⟩

theorem claimC6_witness :
    TagLegacy.remove c6state c6doc = .ok (c6doc.detach 1) { c6state with _tag := none } () ∧
    (c6doc.detach 1).parentOf 1 = none ∧
    TagC.fix c6hc c6doc = ((c6doc.createElement "span").1, { c6hc with element := some 2 }) := by
  have h := claimC6_amended c6doc c6state 1 c6hc (by decide) (by decide) (by decide)
  exact ⟨h.1, h.2.1, h.2.2.2.1⟩

theorem claimC7_witness :
    ∃ d₂ h₂ h₃,
      TagLegacy.construct "div" none none none c7doc = .ok d₂ h₂ () ∧
      TagLegacy.getType h₂ d₂ = .ok d₂ h₃ "div" := by
  obtain ⟨d₂, h₂, h₃, hok, hty, himp⟩ := claimC7_amended c7doc "div" (by decide) (by decide)
  exact ⟨d₂, h₂, h₃, hok, himp (by decide)⟩

theorem claimC8_witness :
    ∃ d₂, TagC.setAttributes c8state (some [("p", "q")]) c8doc =
      .ok d₂ { c8state with storedAttributes := some [("p", "q")] } () := by
  obtain ⟨d₂, hok, -⟩ :=
    claimC8_amended c8doc c8state 1
      ({ Node.mkElement "div" with parent := some 0, attrs := [("a", "1"), ("x", "2")] })
      [("p", "q")] (by decide) (by decide) (by decide) (by decide)
  exact ⟨d₂, hok⟩

theorem claimC9_witness :
    ∃ d₂, TagC.construct (.str "x") c9doc = (d₂, ⟨some 2, none, none, none⟩) := by
  obtain ⟨d₂, hok, -, -⟩ := claimC9_string_never_adopts c9doc "x" (by decide)
  exact ⟨d₂, hok⟩

theorem claimC10_witness :
    TagLegacy.getParent c10state c10doc =
      .ok (c10doc.attach 0 1) { c10state with _parent := some 0 } (some 0) := by
  have h := (claimC10_parent_getter_effect c10doc c10state 1 (Node.mkElement "div")
    (by decide) (by decide)).1 (by decide) (by decide)
  exact h.1
